import Mathlib

/-!
Verification of the credential-defense core (vault / triage / remediation
pipeline) against its natural-language specification.

The Python sources under `src/credential_defense/` are shallowly embedded:
pure functions become Lean functions, the interactive prompts and remote
breach lookups become explicit oracle parameters, the filesystem state of
the vault becomes an explicit state record, and the wall clock
(`utc_now_iso`) becomes a timestamp parameter supplied per operation.
External library primitives (scrypt, Fernet) are modelled by their
documented contracts: the key-derivation function is deterministic in
`(password, salt, n, r, p)` and collision-free, and the authenticated
encryption scheme decrypts only under the key that produced the
ciphertext, failing otherwise.  `hashlib.sha256` is embedded concretely
below.  Character classification (`islower`, `isupper`, `isdigit`,
`str.lower`) is modelled with Lean's ASCII-oriented `Char` predicates.
-/

namespace CredentialDefense

/-! ## Bit-level helpers and SHA-256 (hashlib.sha256(...).hexdigest()) -/

/-- Reduce modulo 2^32, the word size of SHA-256. -/
def mod32 (x : Nat) : Nat := x % 4294967296

/-- Right rotation of a 32-bit word. -/
def rotr32 (x n : Nat) : Nat := mod32 ((x >>> n) ||| (x <<< (32 - n)))

def bigSigma0 (x : Nat) : Nat := rotr32 x 2 ^^^ rotr32 x 13 ^^^ rotr32 x 22

def bigSigma1 (x : Nat) : Nat := rotr32 x 6 ^^^ rotr32 x 11 ^^^ rotr32 x 25

def smallSigma0 (x : Nat) : Nat := rotr32 x 7 ^^^ rotr32 x 18 ^^^ (x >>> 3)

def smallSigma1 (x : Nat) : Nat := rotr32 x 17 ^^^ rotr32 x 19 ^^^ (x >>> 10)

def chF (x y z : Nat) : Nat := (x &&& y) ^^^ ((x ^^^ 4294967295) &&& z)

def majF (x y z : Nat) : Nat := (x &&& y) ^^^ (x &&& z) ^^^ (y &&& z)

/-- The 64 SHA-256 round constants. -/
def K64 : List Nat :=
  [1116352408, 1899447441, 3049323471, 3921009573, 961987163,
   1508970993, 2453635748, 2870763221, 3624381080, 310598401,
   607225278, 1426881987, 1925078388, 2162078206, 2614888103,
   3248222580, 3835390401, 4022224774, 264347078, 604807628,
   770255983, 1249150122, 1555081692, 1996064986, 2554220882,
   2821834349, 2952996808, 3210313671, 3336571891, 3584528711,
   113926993, 338241895, 666307205, 773529912, 1294757372,
   1396182291, 1695183700, 1986661051, 2177026350, 2456956037,
   2730485921, 2820302411, 3259730800, 3345764771, 3516065817,
   3600352804, 4094571909, 275423344, 430227734, 506948616,
   659060556, 883997877, 958139571, 1322822218, 1537002063,
   1747873779, 1955562222, 2024104815, 2227730452, 2361852424,
   2428436474, 2756734187, 3204031479, 3329325298]

/-- The initial SHA-256 hash state. -/
def H0 : List Nat :=
  [1779033703, 3144134277, 1013904242, 2773480762,
   1359893119, 2600822924, 528734635, 1541459225]

/-- Big-endian byte encoding of a number into `n` bytes. -/
def bytesBE : Nat → Nat → List Nat
  | 0, _ => []
  | n + 1, v => bytesBE n (v >>> 8) ++ [v &&& 255]

/-- UTF-8 encoding of a single code point, as in Python's `str.encode("utf-8")`. -/
def utf8CharBytes (c : Nat) : List Nat :=
  if c < 128 then [c]
  else if c < 2048 then [192 ||| (c >>> 6), 128 ||| (c &&& 63)]
  else if c < 65536 then
    [224 ||| (c >>> 12), 128 ||| ((c >>> 6) &&& 63), 128 ||| (c &&& 63)]
  else
    [240 ||| (c >>> 18), 128 ||| ((c >>> 12) &&& 63), 128 ||| ((c >>> 6) &&& 63), 128 ||| (c &&& 63)]

/-- UTF-8 bytes of a string. -/
def utf8Bytes (s : String) : List Nat := (s.data.map (fun c => utf8CharBytes c.toNat)).flatten

/-- SHA-256 message padding: append 0x80, zero bytes to 56 mod 64, then the
bit length as 8 big-endian bytes. -/
def padMessage (msg : List Nat) : List Nat :=
  msg ++ [128] ++ List.replicate ((119 - msg.length % 64) % 64) 0 ++ bytesBE 8 (msg.length * 8)

/-- Group bytes into big-endian 32-bit words. -/
def bytesToWords : List Nat → List Nat
  | b0 :: b1 :: b2 :: b3 :: rest =>
      ((b0 <<< 24) ||| (b1 <<< 16) ||| (b2 <<< 8) ||| b3) :: bytesToWords rest
  | _ => []

/-- Split a word list into chunks of 16 words. -/
def chunk16 : List Nat → List (List Nat)
  | [] => []
  | w :: ws => (w :: ws.take 15) :: chunk16 (ws.drop 15)
termination_by l => l.length
decreasing_by
  simp only [List.length_drop, List.length_cons]
  omega

/-- One extension step of the SHA-256 message schedule. -/
def scheduleStep (ws : List Nat) : Nat :=
  let n := ws.length
  mod32 (smallSigma1 (ws.getD (n - 2) 0) + ws.getD (n - 7) 0 +
         smallSigma0 (ws.getD (n - 15) 0) + ws.getD (n - 16) 0)

/-- Extend 16 schedule words to 64. -/
def schedule (w : List Nat) : List Nat :=
  (List.range 48).foldl (fun ws _ => ws ++ [scheduleStep ws]) w

/-- One round of the SHA-256 compression function. -/
def compressStep (st : List Nat) (kw : Nat × Nat) : List Nat :=
  match st with
  | [a, b, c, d, e, f, g, h] =>
      let t1 := mod32 (h + bigSigma1 e + chF e f g + kw.1 + kw.2)
      let t2 := mod32 (bigSigma0 a + majF a b c)
      [mod32 (t1 + t2), a, b, c, mod32 (d + t1), e, f, g]
  | other => other

/-- Process one 512-bit chunk into the running hash state. -/
def processChunk (h : List Nat) (chunk : List Nat) : List Nat :=
  let st := ((K64.zip (schedule chunk)).foldl compressStep h)
  (h.zip st).map (fun p => mod32 (p.1 + p.2))

/-- The eight 32-bit words of the SHA-256 digest of a byte sequence. -/
def sha256Words (msg : List Nat) : List Nat :=
  (chunk16 (bytesToWords (padMessage msg))).foldl processChunk H0

/-- Lowercase hex digit. -/
def hexDigit (n : Nat) : Char := if n < 10 then Char.ofNat (48 + n) else Char.ofNat (87 + n)

/-- Eight lowercase hex digits of a 32-bit word, most significant first. -/
def wordHex (w : Nat) : List Char :=
  (List.range 8).map (fun i => hexDigit ((w >>> (28 - 4 * i)) &&& 15))

/-- Python's `hashlib.sha256(s.encode("utf-8")).hexdigest()`. -/
def sha256_hexdigest (s : String) : String :=
  String.mk ((sha256Words (utf8Bytes s)).foldl (fun acc w => acc ++ wordHex w) [])

/-! ## utils.py -/

/-- From `utils.py`: the default triage category priority order. -/
def DEFAULT_CATEGORY_ORDER : List String := ["email", "banking", "social", "developer", "other"]

/-- From `utils.stable_record_id`: the first 24 hex characters of the SHA-256
digest of `"owner|service|username"`. -/
def stable_record_id (owner service username : String) : String :=
  (sha256_hexdigest (owner ++ "|" ++ service ++ "|" ++ username)).take 24

/-! ## passwords.py -/

/-- The symbol set checked by `passwords.is_weak_password`
(`"!@#$%^&*()-_=+[]\x7b\x7d:,.?"`). -/
def passwordSymbols : List Char :=
  ['!', '@', '#', '$', '%', '^', '&', '*', '(', ')', '-', '_', '=', '+',
   '[', ']', Char.ofNat 123, Char.ofNat 125, ':', ',', '.', '?']

/-- From `passwords.is_weak_password`: weak when shorter than 14 characters or
missing one of the lowercase / uppercase / digit / symbol classes. -/
def is_weak_password (password : String) : Bool :=
  if password.length < 14 then true
  else
    let cs := password.data
    let checks := [cs.any Char.isLower, cs.any Char.isUpper,
                   cs.any Char.isDigit, cs.any (fun c => passwordSymbols.contains c)]
    !(checks.all id)

/-! ## models.py -/

/-- From `models.CredentialRecord`.  Python's `asdict` / `from_dict` are
field-for-field identities, so the dataclass and its dict form share this
one structure.  Timestamps are opaque strings produced by the clock. -/
structure CredentialRecord where
  record_id : String
  owner : String
  service : String
  url : String
  username : String
  password : String
  source : String
  pending_password : Option String := none
  category : String := "other"
  notes : String := ""
  compromised : Bool := false
  breach_count : Nat := 0
  lifecycle_state : String := "active"
  last_checked_at : Option String := none
  last_rotated_at : Option String := none
  created_at : String
  updated_at : String
  deriving DecidableEq, Repr

/-- From `models.ActionTask`. -/
structure ActionTask where
  task_id : String
  record_id : String
  owner : String
  service : String
  url : String
  action_type : String
  status : String := "pending"
  detail : String := ""
  created_at : String
  updated_at : String
  deriving DecidableEq, Repr

/-! ## vault.py

The vault keeps two files: a plaintext metadata file and an encrypted blob
file.  `os.urandom` salts and `utc_now_iso` timestamps are supplied by the
caller as explicit parameters.  The scrypt KDF and Fernet authenticated
encryption from the `cryptography` package are modelled by their
contracts: `derive_key` is a pure function of the password and the
persisted `(salt, n, r, p)` parameters with no collisions, and a Fernet
token decrypts exactly under the key that encrypted it (`InvalidToken`
otherwise). -/

/-- The plaintext vault metadata written by `initialize`. -/
structure VaultMeta where
  version : Nat
  kdf : String
  salt : String
  n : Nat
  r : Nat
  p : Nat
  created_at : String
  deriving DecidableEq, Repr

/-- Ideal model of `Scrypt(salt, length=32, n, r, p).derive(password)`:
the key is determined exactly by the password and the KDF parameters. -/
structure DerivedKey where
  salt : String
  n : Nat
  r : Nat
  p : Nat
  password : String
  deriving DecidableEq, Repr

/-- The decrypted vault payload (the JSON blob content). -/
structure VaultPayload where
  records : List CredentialRecord
  created_at : String
  updated_at : String
  deriving DecidableEq, Repr

/-- Ideal model of a Fernet token: it is produced by exactly one key and
plaintext, and decryption under any other key fails. -/
structure EncryptedBlob where
  key : DerivedKey
  plainPayload : VaultPayload
  deriving DecidableEq, Repr

/-- The on-disk state of the vault: `VAULT_META_PATH` and `VAULT_PATH`,
each possibly absent. -/
structure VaultState where
  metaFile : Option VaultMeta
  blobFile : Option EncryptedBlob
  deriving DecidableEq, Repr

/-- From `LocalEncryptedVault._derive_key`. -/
def derive_key (master_password : String) (meta : VaultMeta) : DerivedKey :=
  { salt := meta.salt, n := meta.n, r := meta.r, p := meta.p, password := master_password }

/-- Fernet encryption under the ideal-cipher model. -/
def fernetEncrypt (key : DerivedKey) (payload : VaultPayload) : EncryptedBlob :=
  { key := key, plainPayload := payload }

/-- Fernet decryption under the ideal-cipher model: succeeds only under
the encrypting key (`InvalidToken` is `none`). -/
def fernetDecrypt (key : DerivedKey) (blob : EncryptedBlob) : Option VaultPayload :=
  if blob.key = key then some blob.plainPayload else none

/-- Error message raised by `initialize` on an existing vault. -/
def msgAlreadyExists : String := "Vault already exists."

/-- Error message raised by `_load_payload` when a vault file is missing. -/
def msgNotInitialized : String := "Vault is not initialized. Run `credential-defense init` first."

/-- Error message raised by `_load_payload` on decryption failure. -/
def msgInvalidPassword : String := "Invalid vault password."

/-- From `LocalEncryptedVault.exists`: both files must be present. -/
def vaultExists (st : VaultState) : Bool := st.blobFile.isSome && st.metaFile.isSome

/-- From `LocalEncryptedVault._save_payload`: re-read the metadata, derive
the key, encrypt the payload and overwrite the blob file whole.  A missing
metadata file propagates as an I/O error. -/
def save_payload (st : VaultState) (payload : VaultPayload) (master_password : String) :
    Except String VaultState :=
  match st.metaFile with
  | none => .error "vault metadata file missing"
  | some meta =>
      .ok { st with blobFile := some (fernetEncrypt (derive_key master_password meta) payload) }

/-- From `LocalEncryptedVault.initialize`: refuse if the vault exists,
write fresh metadata with a new random salt, then persist an empty
timestamped payload.  `salt` stands for the fresh
`base64(os.urandom(16))` value and `now` for `utc_now_iso()`. -/
def initVault (st : VaultState) (master_password salt now : String) :
    Except String VaultState :=
  if vaultExists st then .error msgAlreadyExists
  else
    let meta : VaultMeta :=
      { version := 1, kdf := "scrypt", salt := salt, n := 32768, r := 8, p := 1, created_at := now }
    let st1 : VaultState := { st with metaFile := some meta }
    save_payload st1 { records := [], created_at := now, updated_at := now } master_password

/-- From `LocalEncryptedVault._load_payload`: missing files give the
not-initialized error, an authentication failure gives the
invalid-password error, otherwise the whole decrypted payload. -/
def load_payload (st : VaultState) (master_password : String) : Except String VaultPayload :=
  if !vaultExists st then .error msgNotInitialized
  else
    match st.metaFile, st.blobFile with
    | some meta, some blob =>
        match fernetDecrypt (derive_key master_password meta) blob with
        | some payload => .ok payload
        | none => .error msgInvalidPassword
    | _, _ => .error msgNotInitialized

/-- From `LocalEncryptedVault.list_records`. -/
def list_records (st : VaultState) (master_password : String) :
    Except String (List CredentialRecord) :=
  (load_payload st master_password).map (fun payload => payload.records)

/-! ### The upsert merge

`upsert_records` builds a Python dict keyed by `record_id` from the stored
records, then inserts each incoming record.  A Python dict keeps the
position of the first insertion of a key and replaces the value in place;
this is `dictInsert` below. -/

/-- Insert-or-replace by `record_id`, preserving the position of an
existing key and appending a new one (Python dict assignment). -/
def dictInsert (l : List CredentialRecord) (r : CredentialRecord) : List CredentialRecord :=
  match l with
  | [] => [r]
  | x :: xs => if x.record_id = r.record_id then r :: xs else x :: dictInsert xs r

/-- Build the dict `{item["record_id"]: item for item in records}`. -/
def buildDict (l : List CredentialRecord) : List CredentialRecord :=
  l.foldl dictInsert []

/-- The key list of the record dict. -/
def dictKeys (l : List CredentialRecord) : List String := l.map (fun r => r.record_id)

/-- Lookup by `record_id` (first match, as in a Python dict built by
`dictInsert`). -/
def dictFind (l : List CredentialRecord) (k : String) : Option CredentialRecord :=
  l.find? (fun r => r.record_id = k)

/-- The merged item written for an incoming record: `updated_at` is
refreshed to now, `created_at` is kept from the stored item when the key
already exists and set to now otherwise. -/
def mergeItem (current : List CredentialRecord) (r : CredentialRecord) (now : String) :
    CredentialRecord :=
  { r with updated_at := now,
           created_at := match dictFind current r.record_id with
                         | some old => old.created_at
                         | none => now }

/-- The merge loop of `upsert_records` over the incoming batch. -/
def upsertMerge (current : List CredentialRecord) (batch : List CredentialRecord) (now : String) :
    List CredentialRecord :=
  batch.foldl (fun cur r => dictInsert cur (mergeItem cur r now)) current

/-- From `LocalEncryptedVault.upsert_records`: load the whole collection,
merge by `record_id`, re-encrypt and rewrite the whole blob, and return
how many records are new (`len(current) - before`). -/
def upsert_records (st : VaultState) (master_password : String)
    (records : List CredentialRecord) (now : String) :
    Except String (Nat × VaultState) :=
  match load_payload st master_password with
  | .error e => .error e
  | .ok payload =>
      let current := buildDict payload.records
      let merged := upsertMerge current records now
      match save_payload st
          { records := merged, created_at := payload.created_at, updated_at := now }
          master_password with
      | .error e => .error e
      | .ok st1 => .ok (merged.length - current.length, st1)

/-- The number of distinct incoming record ids that are not already keys
of the stored collection — what the spec says `upsert` returns. -/
def newIds (current batch : List CredentialRecord) : Nat :=
  ((batch.map (fun r => r.record_id)).toFinset \ (dictKeys current).toFinset).card

/-- Modelled from the spec wording of the weak-password rule, for the
refinement comparison in C8: length below 14, or lacking a lowercase
letter, an uppercase letter, a digit, or a symbol. -/
def weakPasswordSpec (password : String) : Prop :=
  password.length < 14 ∨
    ¬((∃ c ∈ password.data, c.isLower) ∧ (∃ c ∈ password.data, c.isUpper) ∧
      (∃ c ∈ password.data, c.isDigit) ∧ (∃ c ∈ password.data, c ∈ passwordSymbols))

/-! ## breach.py

The two remote lookups (`pwned_password_count`,
`hibp_breaches_for_email`) are network calls; their outcomes enter the
model as oracle values: `.ok n` for a successful pwned count, `.ok names`
for a successful email lookup returning the breach `Name` fields (the
HTTP 404 case is `.ok []`), and `.error msg` for a caught
`requests.RequestException` rendered as text. -/

/-- Outcomes of the two optional remote checks for one assessment. -/
structure AssessOracles where
  pwnedResult : Except String Nat
  emailResult : Except String (List String)
  deriving Repr

/-- One cached entry of `local_breach_cache.json`, keyed by record id. -/
structure BreachCacheEntry where
  service : String
  username : String
  owner : String
  checked_at : String
  pwned_password_count : Nat
  email_breaches : List String
  risk_level : String
  reasons : List String
  deriving DecidableEq, Repr

/-- The dict returned by `assess_record_risk`. -/
structure RiskResult where
  risk_level : String
  reasons : List String
  pwned_password_count : Nat
  email_breach_count : Nat
  email_breach_names : List String
  deriving DecidableEq, Repr

/-- Python dict assignment `cache[record_id] = entry`. -/
def cacheInsert (cache : List (String × BreachCacheEntry)) (k : String) (v : BreachCacheEntry) :
    List (String × BreachCacheEntry) :=
  match cache with
  | [] => [(k, v)]
  | p :: ps => if p.1 = k then (k, v) :: ps else p :: cacheInsert ps k v

/-- Rank of a risk level in the `low → medium → high` escalation order. -/
def riskRank (risk : String) : Nat :=
  if risk = "low" then 0 else if risk = "medium" then 1 else if risk = "high" then 2 else 0

/-- The local weak-password check of `assess_record_risk`: starting risk
and reasons before any remote check runs. -/
def localRiskStep (record : CredentialRecord) : String × List String :=
  if is_weak_password record.password then ("medium", ["Password policy weakness detected"])
  else ("low", [])

/-- The guard of the remote password sub-check:
`online_password_check and record.password` (Python string truthiness). -/
def pwdGuard (online_password_check : Bool) (record : CredentialRecord) : Bool :=
  online_password_check && !(record.password = "")

/-- The remote password sub-check of `assess_record_risk`: runs only when
enabled and the password is non-empty; a positive pwned count forces risk
`high`; a transport error only appends a reason. -/
def pwdCheckStep (risk : String) (reasons : List String) (record : CredentialRecord)
    (online_password_check : Bool) (oracle : Except String Nat) :
    String × List String × Nat :=
  if pwdGuard online_password_check record then
    match oracle with
    | .ok n =>
        if n > 0 then
          ("high", reasons ++ ["Password hash appears in " ++ toString n ++ " breach records"], n)
        else (risk, reasons, n)
    | .error e => (risk, reasons ++ ["Password breach API unavailable: " ++ e], 0)
  else (risk, reasons, 0)

/-- The guard of the remote email sub-check: enabled, an API key set
(Python truthiness: non-`None`, non-empty) and a username containing `@`. -/
def emailGuard (online_email_check : Bool) (hibp_api_key : Option String)
    (record : CredentialRecord) : Bool :=
  let keyOk := match hibp_api_key with
               | some k => !(k = "")
               | none => false
  online_email_check && keyOk && record.username.data.contains '@'

/-- The remote email sub-check of `assess_record_risk`: runs only when
its guard holds; a non-empty breach list forces risk `high`; a transport
error only appends a reason. -/
def emailCheckStep (risk : String) (reasons : List String) (record : CredentialRecord)
    (online_email_check : Bool) (hibp_api_key : Option String)
    (oracle : Except String (List String)) :
    String × List String × List String :=
  if emailGuard online_email_check hibp_api_key record then
    match oracle with
    | .ok breaches =>
        if !(breaches = []) then
          ("high",
           reasons ++ ["Email found in " ++ toString breaches.length ++ " breach events"],
           breaches)
        else (risk, reasons, breaches)
    | .error e => (risk, reasons ++ ["Email breach API unavailable: " ++ e], [])
  else (risk, reasons, [])

/-- From `breach.assess_record_risk`: local check, then the two optional
remote checks, then the record mutation and the cache upsert. -/
def assess_record_risk (record : CredentialRecord)
    (online_password_check online_email_check : Bool) (hibp_api_key : Option String)
    (oracles : AssessOracles) (cache : List (String × BreachCacheEntry)) (now : String) :
    RiskResult × CredentialRecord × List (String × BreachCacheEntry) :=
  let s1 := localRiskStep record
  let s2 := pwdCheckStep s1.1 s1.2 record online_password_check oracles.pwnedResult
  let s3 := emailCheckStep s2.1 s2.2.1 record online_email_check hibp_api_key oracles.emailResult
  let pwned_count := s2.2.2
  let email_breaches := s3.2.2
  let record1 :=
    { record with compromised := (pwned_count > 0) || !(email_breaches = []),
                  breach_count := pwned_count + email_breaches.length,
                  last_checked_at := some now }
  let entry : BreachCacheEntry :=
    { service := record.service, username := record.username, owner := record.owner,
      checked_at := now, pwned_password_count := pwned_count,
      email_breaches := email_breaches, risk_level := s3.1, reasons := s3.2.1 }
  ({ risk_level := s3.1, reasons := s3.2.1, pwned_password_count := pwned_count,
     email_breach_count := email_breaches.length, email_breach_names := email_breaches },
   record1, cacheInsert cache record.record_id entry)

/-! ## workflow.py ordering -/

/-- From `workflow._priority_index`: `priority_order.index(category)`, with
`len(priority_order)` for an unlisted category. -/
def priorityIndexOf (category : String) (priority_order : List String) : Nat :=
  match priority_order.indexOf? category with
  | some i => i
  | none => priority_order.length

/-- From `workflow._task_id`: the first 20 hex characters of the SHA-256
digest of `"record_id|action_type"`. -/
def task_id_of (record_id action_type : String) : String :=
  (sha256_hexdigest (record_id ++ "|" ++ action_type)).take 20

/-- Python `str.lower()` applied characterwise (ASCII model). -/
def lowerChars (s : String) : List Char := s.data.map Char.toLower

/-- Python string `<`: lexicographic comparison of code points, a proper
prefix being smaller. -/
def lexLt : List Char → List Char → Bool
  | [], [] => false
  | [], _ :: _ => true
  | _ :: _, [] => false
  | a :: as, b :: bs => if a = b then lexLt as bs else decide (a.toNat < b.toNat)

/-- The sort key of `workflow._sort_records`:
`(_priority_index(category), service.lower(), username.lower())`. -/
def sortKey (priority_order : List String) (r : CredentialRecord) :
    Nat × List Char × List Char :=
  (priorityIndexOf r.category priority_order, lowerChars r.service, lowerChars r.username)

/-- Non-strict lexicographic comparison of two records by their sort key,
the total preorder under which Python's `sorted` orders the list. -/
def keyLe (priority_order : List String) (a b : CredentialRecord) : Bool :=
  if (sortKey priority_order a).1 < (sortKey priority_order b).1 then true
  else if (sortKey priority_order b).1 < (sortKey priority_order a).1 then false
  else if lexLt (sortKey priority_order a).2.1 (sortKey priority_order b).2.1 then true
  else if lexLt (sortKey priority_order b).2.1 (sortKey priority_order a).2.1 then false
  else if lexLt (sortKey priority_order a).2.2 (sortKey priority_order b).2.2 then true
  else if lexLt (sortKey priority_order b).2.2 (sortKey priority_order a).2.2 then false
  else true

/-- Stable insertion of an element into a run, placing it after every
element that is `le` it (the stable-sort insertion step). -/
def insertStable (le : CredentialRecord → CredentialRecord → Bool)
    (x : CredentialRecord) : List CredentialRecord → List CredentialRecord
  | [] => [x]
  | y :: ys => if le y x then y :: insertStable le x ys else x :: y :: ys

/-- Python's builtin `sorted`: the stable ascending reordering under `le`,
modelled as a stable insertion sort. -/
def pySorted (le : CredentialRecord → CredentialRecord → Bool)
    (l : List CredentialRecord) : List CredentialRecord :=
  l.foldl (fun acc x => insertStable le x acc) []

/-- The workspace settings consumed by the workflow
(`settings.get("priority_categories", DEFAULT_CATEGORY_ORDER)`). -/
structure WorkspaceSettings where
  priority_categories : List String := DEFAULT_CATEGORY_ORDER
  deriving DecidableEq, Repr

/-- From `workflow._sort_records`: sort by
`(_priority_index(category), service.lower(), username.lower())`. -/
def sort_records (records : List CredentialRecord) (settings : WorkspaceSettings) :
    List CredentialRecord :=
  pySorted (keyLe settings.priority_categories) records

/-! ## actions.py queue and executor -/

/-- From `actions.queue_task`: appending is a no-op when a task with the
same `task_id` is already queued. -/
def queue_task (tasks : List ActionTask) (task : ActionTask) : List ActionTask :=
  if tasks.any (fun existing => existing.task_id = task.task_id) then tasks
  else tasks ++ [task]

/-- Python `str.strip()` on the character list. -/
def stripChars (l : List Char) : List Char :=
  ((l.dropWhile Char.isWhitespace).reverse.dropWhile Char.isWhitespace).reverse

/-- Boolean list prefix test used for URL scheme detection. -/
def startsWithChars : List Char → List Char → Bool
  | _, [] => true
  | [], _ :: _ => false
  | c :: cs, p :: ps => if c = p then startsWithChars cs ps else false

/-- From `utils.normalize_url`: strip, keep an existing scheme, default to
`https://`. -/
def normalize_url (value : String) : String :=
  let raw := stripChars value.data
  if raw = [] then ""
  else if startsWithChars raw "http://".data || startsWithChars raw "https://".data then
    String.mk raw
  else String.mk ("https://".data ++ raw)

/-- The netloc part after the scheme: everything up to `/`, `?` or `#`
(the `urlparse` behaviour on the normalized URL). -/
def takeNetloc : List Char → List Char
  | [] => []
  | c :: cs => if c = '/' || c = '?' || c = '#' then [] else c :: takeNetloc cs

/-- Drop the URL scheme produced by `normalize_url`. -/
def afterSchemeChars (l : List Char) : List Char :=
  if startsWithChars l "https://".data then l.drop 8
  else if startsWithChars l "http://".data then l.drop 7
  else l

/-- Python `str.removeprefix("www.")`. -/
def dropWwwDot (l : List Char) : List Char :=
  if startsWithChars l "www.".data then l.drop 4 else l

/-- From `utils.domain_from_url`: lowercased netloc of the normalized URL
with a leading `www.` removed. -/
def domain_from_url (url : String) : String :=
  if url = "" then ""
  else String.mk (dropWwwDot ((takeNetloc (afterSchemeChars (normalize_url url).data)).map Char.toLower))

/-- A per-site remediation profile from `site_profiles.json`.  The
automation selector hints only influence whether a playwright run
succeeds, which the executor model receives as an oracle, so only the
`enabled` flag is kept. -/
structure SiteProfile where
  change_password_url : Option String := none
  delete_account_url : Option String := none
  automationEnabled : Bool := false
  deriving DecidableEq, Repr

/-- The empty profile `profiles.get(domain, {})` falls back to. -/
def defaultSiteProfile : SiteProfile := {}

/-- From `actions._site_profile_for`. -/
def site_profile_for (record : CredentialRecord)
    (site_profiles : List (String × SiteProfile)) : SiteProfile :=
  match site_profiles.find? (fun p => p.1 = domain_from_url record.url) with
  | some p => p.2
  | none => defaultSiteProfile

/-- Python `a or b` on an optional string: `None` and `""` both fall
through to the fallback. -/
def orElseStr (o : Option String) (fallback : String) : String :=
  match o with
  | some s => if s = "" then fallback else s
  | none => fallback

/-- From `actions._task_target_url`. -/
def task_target_url (task : ActionTask) (record : CredentialRecord)
    (site_profiles : List (String × SiteProfile)) : String :=
  let profile := site_profile_for record site_profiles
  if task.action_type = "rotate_password" then orElseStr profile.change_password_url record.url
  else if task.action_type = "delete_account" then orElseStr profile.delete_account_url record.url
  else record.url

/-- One line of the append-only session journal
(`actions._write_journal`). -/
structure JournalEntry where
  timestamp : String
  task_id : String
  record_id : String
  service : String
  username : String
  action_type : String
  status : String
  deriving DecidableEq, Repr

/-- The `records: dict[str, CredentialRecord]` passed to the executor. -/
abbrev RecordsMap : Type := List (String × CredentialRecord)

/-- Python `records.get(record_id)`. -/
def mapFind (m : RecordsMap) (k : String) : Option CredentialRecord :=
  match List.find? (fun p => p.1 = k) m with
  | some p => some p.2
  | none => none

/-- In-place mutation of the record object held in the dict. -/
def mapUpdate (m : RecordsMap) (k : String) (v : CredentialRecord) : RecordsMap :=
  match m with
  | [] => []
  | p :: ps => if p.1 = k then (k, v) :: ps else p :: mapUpdate ps k v

/-- Operator and environment choices consumed while executing one task:
the two confirmation prompts, whether the attempted playwright run
returned `True`, and the password produced by the (validating, looping)
hidden manual-entry prompt. -/
structure ExecDecision where
  openNow : Bool
  tryAutomation : Bool
  automationOutcome : Bool
  manualPassword : String
  markCompleted : Bool
  deriving DecidableEq, Repr

/-- From the per-task body of `actions.execute_pending_actions`: returns
the updated task, the updated records dict, and the journal lines
appended while processing this task. -/
def execStep (playwrightAvailable : Bool) (site_profiles : List (String × SiteProfile))
    (dec : ExecDecision) (now : String) (records : RecordsMap) (task : ActionTask) :
    ActionTask × RecordsMap × List JournalEntry :=
  if !(task.status = "pending") then (task, records, [])
  else
    match mapFind records task.record_id with
    | none =>
        ({ task with status := "failed", detail := "Record missing in vault", updated_at := now },
         records, [])
    | some record =>
        if !dec.openNow then
          ({ task with status := "skipped", detail := "User deferred", updated_at := now },
           records, [])
        else
          let profile := site_profile_for record site_profiles
          let autoAttempted := playwrightAvailable && profile.automationEnabled && dec.tryAutomation
          let autoSucceeded := autoAttempted &&
            (task.action_type = "rotate_password" || task.action_type = "delete_account") &&
            dec.automationOutcome
          let newPassword := orElseStr record.pending_password record.password
          let appliedPassword :=
            if task.action_type = "rotate_password" && !autoSucceeded then dec.manualPassword
            else newPassword
          let status := if dec.markCompleted then "completed" else "failed"
          let detail :=
            if dec.markCompleted then
              if autoSucceeded then "Completed with Playwright automation + user confirmation"
              else if autoAttempted then "Automation attempted; completed manually by user confirmation"
              else "Completed manually by user confirmation"
            else "Not completed"
          let records1 :=
            if task.action_type = "rotate_password" && dec.markCompleted then
              mapUpdate records task.record_id
                { record with password := appliedPassword, pending_password := none,
                              updated_at := now }
            else records
          let task1 := { task with status := status, detail := detail, updated_at := now }
          (task1, records1,
           [{ timestamp := now, task_id := task.task_id, record_id := task.record_id,
              service := record.service, username := record.username,
              action_type := task.action_type, status := task1.status }])

/-- The loop of `execute_pending_actions` over the queue, threading the
records dict and collecting journal lines; `decs i` supplies the operator
choices for the task at position `i`. -/
def execGo (playwrightAvailable : Bool) (site_profiles : List (String × SiteProfile))
    (decs : Nat → ExecDecision) (now : String) :
    List ActionTask → Nat → RecordsMap → List ActionTask × RecordsMap × List JournalEntry
  | [], _, records => ([], records, [])
  | t :: rest, i, records =>
      let s := execStep playwrightAvailable site_profiles (decs i) now records t
      let g := execGo playwrightAvailable site_profiles decs now rest (i + 1) s.2.1
      (s.1 :: g.1, g.2.1, s.2.2 ++ g.2.2)

/-- The outcome of one executor run: the mutated queue, the mutated
records dict, the journal lines appended during the run, and the queue
written back by the final `save_action_queue(tasks)`. -/
structure ExecResult where
  tasks : List ActionTask
  records : RecordsMap
  journal : List JournalEntry
  savedQueue : List ActionTask
  deriving Repr

/-- From `actions.execute_pending_actions`. -/
def execute_pending_actions (tasks : List ActionTask) (records : RecordsMap)
    (site_profiles : List (String × SiteProfile)) (playwrightAvailable : Bool)
    (decs : Nat → ExecDecision) (now : String) : ExecResult :=
  let g := execGo playwrightAvailable site_profiles decs now tasks 0 records
  { tasks := g.1, records := g.2.1, journal := g.2.2, savedQueue := g.1 }

/-! ## workflow.py guided session -/

/-- Operator answers and environment draws consumed while reviewing one
record: the three-way still-using choice, the two confirmations, the
password produced by `generate_strong_password(24)`, and the remote-check
outcomes of the embedded assessment. -/
structure WorkflowDecision where
  stillUsing : String
  queueDeletion : Bool
  rotateNow : Bool
  generatedPassword : String
  oracles : AssessOracles
  deriving Repr

/-- The per-record body of `workflow.run_guided_session`: assess, branch
on the still-using answer, mutate the record lifecycle and enqueue tasks.
The rotate prompt's computed default only changes the prompt's suffix;
the operator's answer is `dec.rotateNow` either way. -/
def reviewRecord (record : CredentialRecord) (dec : WorkflowDecision)
    (online_password_check online_email_check : Bool) (hibp_api_key : Option String)
    (tasks : List ActionTask) (cache : List (String × BreachCacheEntry)) (now : String) :
    CredentialRecord × List ActionTask × List (String × BreachCacheEntry) :=
  let a := assess_record_risk record online_password_check online_email_check hibp_api_key
             dec.oracles cache now
  let record1 := a.2.1
  let cache1 := a.2.2
  if dec.stillUsing = "no" then
    let record2 := { record1 with lifecycle_state := "inactive" }
    if dec.queueDeletion then
      let t : ActionTask :=
        { task_id := task_id_of record.record_id "delete_account",
          record_id := record.record_id, owner := record.owner, service := record.service,
          url := record.url, action_type := "delete_account", status := "pending",
          detail := "User marked account as no longer needed",
          created_at := now, updated_at := now }
      ({ record2 with lifecycle_state := "retire_pending", updated_at := now },
       queue_task tasks t, cache1)
    else ({ record2 with updated_at := now }, tasks, cache1)
  else if dec.stillUsing = "not sure" then
    ({ record1 with lifecycle_state := "review_later", updated_at := now }, tasks, cache1)
  else
    let record2 := { record1 with lifecycle_state := "active" }
    if dec.rotateNow then
      let t : ActionTask :=
        { task_id := task_id_of record.record_id "rotate_password",
          record_id := record.record_id, owner := record.owner, service := record.service,
          url := record.url, action_type := "rotate_password", status := "pending",
          detail := "User approved password rotation",
          created_at := now, updated_at := now }
      ({ record2 with pending_password := some dec.generatedPassword,
                      last_rotated_at := some now, updated_at := now },
       queue_task tasks t, cache1)
    else ({ record2 with updated_at := now }, tasks, cache1)

/-- The traversal loop of `run_guided_session` over the sorted records. -/
def guidedGo (online_password_check online_email_check : Bool) (hibp_api_key : Option String)
    (decs : Nat → WorkflowDecision) (now : String) :
    List CredentialRecord → Nat → List ActionTask → List (String × BreachCacheEntry) →
    List CredentialRecord × List ActionTask × List (String × BreachCacheEntry)
  | [], _, tasks, cache => ([], tasks, cache)
  | r :: rest, i, tasks, cache =>
      let s := reviewRecord r (decs i) online_password_check online_email_check hibp_api_key
                 tasks cache now
      let g := guidedGo online_password_check online_email_check hibp_api_key decs now
                 rest (i + 1) s.2.1 s.2.2
      (s.1 :: g.1, g.2.1, g.2.2)

/-- From `workflow.run_guided_session`: sort, review each record in
order, and return the mutated ordered records with the updated queue
(persisted by the trailing `save_action_queue`). -/
def run_guided_session (records : List CredentialRecord) (settings : WorkspaceSettings)
    (online_password_check online_email_check : Bool) (hibp_api_key : Option String)
    (decs : Nat → WorkflowDecision) (tasks0 : List ActionTask)
    (cache0 : List (String × BreachCacheEntry)) (now : String) :
    List CredentialRecord × List ActionTask × List (String × BreachCacheEntry) :=
  guidedGo online_password_check online_email_check hibp_api_key decs now
    (sort_records records settings) 0 tasks0 cache0

/-! ## Concrete fixtures used by the witness theorems -/

/-- A concrete vault metadata file. -/
def fxMeta : VaultMeta :=
  { version := 1, kdf := "scrypt", salt := "salt0", n := 32768, r := 8, p := 1,
    created_at := "t0" }

/-- A concrete stored credential record. -/
def fxRecordA : CredentialRecord :=
  { record_id := "aaa", owner := "parent", service := "GitHub",
    url := "https://github.com", username := "alice", password := "pw1",
    source := "csv", created_at := "t0", updated_at := "t0" }

/-- A concrete stored vault payload holding one record. -/
def fxVaultPayload : VaultPayload := { records := [fxRecordA], created_at := "t0", updated_at := "t0" }

/-- A concrete initialized vault state encrypted under password `pw`. -/
def fxVaultState : VaultState :=
  { metaFile := some fxMeta,
    blobFile := some (fernetEncrypt (derive_key "pw" fxMeta) fxVaultPayload) }

/-- A re-import batch carrying the record id already stored in
`fxVaultPayload`. -/
def fxBatchA : List CredentialRecord :=
  [{ fxRecordA with password := "pw2", updated_at := "zz" }]

/-- A concrete queued task whose id derives from `("aaa", rotate_password)`. -/
def fxTaskQueued : ActionTask :=
  { task_id := task_id_of "aaa" "rotate_password", record_id := "aaa", owner := "parent",
    service := "GitHub", url := "https://github.com", action_type := "rotate_password",
    status := "pending", detail := "queued", created_at := "t0", updated_at := "t0" }

/-- A duplicate enqueue attempt for the same `(record_id, action_type)` pair. -/
def fxTaskDup : ActionTask := { fxTaskQueued with detail := "requeued" }

/-- A concrete record with the spec's example weak password. -/
def fxWeakRecord : CredentialRecord := { fxRecordA with password := "abc123" }

/-- The workspace settings of the spec's ordering example. -/
def fxSettings : WorkspaceSettings := { priority_categories := ["email", "banking", "social"] }

/-- The `social` record of the ordering example. -/
def fxRecSocial : CredentialRecord :=
  { fxRecordA with record_id := "s1", category := "social", service := "Reddit", username := "u" }

/-- The `email` record of the ordering example. -/
def fxRecEmail : CredentialRecord :=
  { fxRecordA with record_id := "e1", category := "email", service := "Gmail", username := "u" }

/-- The `other` record of the ordering example. -/
def fxRecOther : CredentialRecord :=
  { fxRecordA with record_id := "o1", category := "other", service := "Zzz", username := "u" }

/-- A second `social` record whose service sorts before `Reddit`. -/
def fxRecSocial2 : CredentialRecord :=
  { fxRecordA with record_id := "s2", category := "social", service := "Facebook", username := "u" }

/-- A scripted review decision that leaves records untouched
(`not sure`) with benign oracles. -/
def fxWfDecision : WorkflowDecision :=
  { stillUsing := "not sure", queueDeletion := false, rotateNow := false,
    generatedPassword := "Xx1,abcdefghijklmnopq", oracles := AssessOracles.mk (.ok 0) (.ok []) }

/-- A pending rotation task referencing a record id absent from the vault. -/
def fxTaskMissing : ActionTask :=
  { task_id := "tid-missing", record_id := "ghost", owner := "parent", service := "GitHub",
    url := "https://github.com", action_type := "rotate_password", status := "pending",
    detail := "queued", created_at := "t0", updated_at := "t0" }

/-- A pending rotation task referencing the stored record `aaa`. -/
def fxTaskPendingA : ActionTask :=
  { task_id := "tid-a", record_id := "aaa", owner := "parent", service := "GitHub",
    url := "https://github.com", action_type := "rotate_password", status := "pending",
    detail := "queued", created_at := "t0", updated_at := "t0" }

/-- A task already completed in an earlier run. -/
def fxTaskDone : ActionTask := { fxTaskPendingA with task_id := "tid-done", status := "completed" }

/-- Operator choices: confirm execution and completion, no automation. -/
def fxDecOpen : ExecDecision :=
  { openNow := true, tryAutomation := false, automationOutcome := false,
    manualPassword := "ManualPw1,abcdefghi", markCompleted := true }

/-- Operator choices: decline the execute-now confirmation. -/
def fxDecDefer : ExecDecision :=
  { openNow := false, tryAutomation := false, automationOutcome := false,
    manualPassword := "", markCompleted := true }

/-! ## Theorems -/

/-- Claim C1: for every master password `pw` and wrong password
`wpw ≠ pw`, `initialize(pw)` followed by `load(pw)` returns an empty
record collection whose creation timestamp matches the one written at
initialization, while `load(wpw)` on the same vault fails with the
distinct `InvalidVaultPassword` condition and returns no data. -/
theorem c1_initialize_load_roundtrip (st : VaultState) (pw wpw salt now : String)
    (hfresh : vaultExists st = false) (hne : wpw ≠ pw) :
    ∃ st1, initVault st pw salt now = .ok st1 ∧
      load_payload st1 pw = .ok { records := [], created_at := now, updated_at := now } ∧
      list_records st1 pw = .ok [] ∧
      (∃ meta, st1.metaFile = some meta ∧ meta.created_at = now ∧ meta.salt = salt) ∧
      load_payload st1 wpw = .error msgInvalidPassword ∧
      (∀ payload, load_payload st1 wpw ≠ .ok payload) ∧
      msgInvalidPassword ≠ msgNotInitialized := by
  have hkey : ¬ (derive_key pw ⟨1, "scrypt", salt, 32768, 8, 1, now⟩ =
      derive_key wpw ⟨1, "scrypt", salt, 32768, 8, 1, now⟩) := by
    intro h
    exact hne (congrArg DerivedKey.password h).symm
  refine ⟨{ metaFile := some ⟨1, "scrypt", salt, 32768, 8, 1, now⟩,
            blobFile := some (fernetEncrypt
              (derive_key pw ⟨1, "scrypt", salt, 32768, 8, 1, now⟩)
              { records := [], created_at := now, updated_at := now }) },
         ?_, ?_, ?_, ⟨_, rfl, rfl, rfl⟩, ?_, ?_, ?_⟩
  · simp [initVault, hfresh, save_payload]
  · simp [load_payload, vaultExists, fernetEncrypt, fernetDecrypt]
  · simp [list_records, load_payload, vaultExists, fernetEncrypt, fernetDecrypt, Except.map]
  · simp [load_payload, vaultExists, fernetEncrypt, fernetDecrypt, hkey]
  · intro payload
    simp [load_payload, vaultExists, fernetEncrypt, fernetDecrypt, hkey]
  · simp [msgInvalidPassword, msgNotInitialized]

/-- Witness for C1 at a concrete fresh state and password pair. -/
theorem c1_witness :
    ∃ st1, initVault ⟨none, none⟩ "pw" "salt0" "t0" = .ok st1 ∧
      load_payload st1 "pw" = .ok { records := [], created_at := "t0", updated_at := "t0" } ∧
      list_records st1 "pw" = .ok [] ∧
      (∃ meta, st1.metaFile = some meta ∧ meta.created_at = "t0" ∧ meta.salt = "salt0") ∧
      load_payload st1 "wrong" = .error msgInvalidPassword ∧
      (∀ payload, load_payload st1 "wrong" ≠ .ok payload) ∧
      msgInvalidPassword ≠ msgNotInitialized :=
  c1_initialize_load_roundtrip ⟨none, none⟩ "pw" "wrong" "salt0" "t0" (by decide) (by decide)

/-- Claim C10: when exactly one of the two vault files exists, the vault
reports itself as not existing; `initialize` then succeeds (no
"Vault already exists" failure), regenerating the salt and overwriting
the surviving file's state with a fresh empty vault, while `load` in the
original one-file state fails with the `VaultNotInitialized` condition
rather than `InvalidVaultPassword`. -/
theorem c10_single_file_vault (st : VaultState) (pw salt now : String)
    (hone : st.metaFile.isSome ≠ st.blobFile.isSome) :
    vaultExists st = false ∧
    (∃ st1, initVault st pw salt now = .ok st1 ∧
      (∃ meta, st1.metaFile = some meta ∧ meta.salt = salt ∧ meta.created_at = now) ∧
      load_payload st1 pw = .ok { records := [], created_at := now, updated_at := now }) ∧
    (∀ anyPw, load_payload st anyPw = .error msgNotInitialized) ∧
    msgNotInitialized ≠ msgInvalidPassword := by
  have hfalse : vaultExists st = false := by
    cases hm : st.metaFile <;> cases hb : st.blobFile
    · simp [vaultExists, hm, hb]
    · simp [vaultExists, hm, hb]
    · simp [vaultExists, hm, hb]
    · simp [hm, hb] at hone
  refine ⟨hfalse, ?_, ?_, ?_⟩
  · refine ⟨{ metaFile := some ⟨1, "scrypt", salt, 32768, 8, 1, now⟩,
              blobFile := some (fernetEncrypt
                (derive_key pw ⟨1, "scrypt", salt, 32768, 8, 1, now⟩)
                { records := [], created_at := now, updated_at := now }) },
           ?_, ⟨_, rfl, rfl, rfl⟩, ?_⟩
    · simp [initVault, hfalse, save_payload]
    · simp [load_payload, vaultExists, fernetEncrypt, fernetDecrypt]
  · intro anyPw
    simp [load_payload, hfalse]
  · simp [msgInvalidPassword, msgNotInitialized]

/-- Witness for C10 at a concrete state holding only the metadata file. -/
theorem c10_witness :
    vaultExists ⟨some ⟨1, "scrypt", "oldsalt", 32768, 8, 1, "t0"⟩, none⟩ = false ∧
    (∃ st1, initVault ⟨some ⟨1, "scrypt", "oldsalt", 32768, 8, 1, "t0"⟩, none⟩
        "pw" "newsalt" "t1" = .ok st1 ∧
      (∃ meta, st1.metaFile = some meta ∧ meta.salt = "newsalt" ∧ meta.created_at = "t1") ∧
      load_payload st1 "pw" = .ok { records := [], created_at := "t1", updated_at := "t1" }) ∧
    (∀ anyPw, load_payload ⟨some ⟨1, "scrypt", "oldsalt", 32768, 8, 1, "t0"⟩, none⟩ anyPw =
      .error msgNotInitialized) ∧
    msgNotInitialized ≠ msgInvalidPassword :=
  c10_single_file_vault ⟨some ⟨1, "scrypt", "oldsalt", 32768, 8, 1, "t0"⟩, none⟩
    "pw" "newsalt" "t1" (by decide)


/-! ### Dictionary-merge lemmas for the upsert (C2) -/
theorem mergeItem_record_id (current : List CredentialRecord) (r : CredentialRecord)
    (now : String) : (mergeItem current r now).record_id = r.record_id := rfl

theorem dictKeys_nil : dictKeys [] = [] := rfl

theorem dictKeys_cons (x : CredentialRecord) (xs : List CredentialRecord) :
    dictKeys (x :: xs) = x.record_id :: dictKeys xs := rfl

theorem dictFind_nil (k : String) : dictFind [] k = none := rfl

theorem dictFind_cons (x : CredentialRecord) (xs : List CredentialRecord) (k : String) :
    dictFind (x :: xs) k = if x.record_id = k then some x else dictFind xs k := by
  by_cases h : x.record_id = k
  · simp [dictFind, h]
  · simp [dictFind, h]

theorem dictKeys_dictInsert (l : List CredentialRecord) (r : CredentialRecord) :
    dictKeys (dictInsert l r) =
      if r.record_id ∈ dictKeys l then dictKeys l else dictKeys l ++ [r.record_id] := by
  induction l with
  | nil => simp [dictInsert, dictKeys_nil, dictKeys_cons]
  | cons x xs ih =>
      by_cases h : x.record_id = r.record_id
      · rw [show dictInsert (x :: xs) r = r :: xs by simp [dictInsert, h]]
        rw [if_pos (by simp [dictKeys_cons, h] : r.record_id ∈ dictKeys (x :: xs))]
        rw [dictKeys_cons, dictKeys_cons, h]
      · rw [show dictInsert (x :: xs) r = x :: dictInsert xs r by simp [dictInsert, h]]
        have hcond : (r.record_id ∈ dictKeys (x :: xs)) ↔ r.record_id ∈ dictKeys xs := by
          rw [dictKeys_cons]
          simp [List.mem_cons]
          intro hh
          exact absurd hh.symm h
        by_cases hm : r.record_id ∈ dictKeys xs
        · rw [if_pos (hcond.mpr hm), dictKeys_cons, dictKeys_cons, ih, if_pos hm]
        · rw [if_neg (fun hh => hm (hcond.mp hh)), dictKeys_cons, dictKeys_cons, ih, if_neg hm,
              List.cons_append]

theorem length_dictInsert (l : List CredentialRecord) (r : CredentialRecord) :
    (dictInsert l r).length = if r.record_id ∈ dictKeys l then l.length else l.length + 1 := by
  induction l with
  | nil => simp [dictInsert, dictKeys_nil]
  | cons x xs ih =>
      by_cases h : x.record_id = r.record_id
      · rw [show dictInsert (x :: xs) r = r :: xs by simp [dictInsert, h]]
        rw [if_pos (by simp [dictKeys_cons, h] : r.record_id ∈ dictKeys (x :: xs))]
        simp
      · rw [show dictInsert (x :: xs) r = x :: dictInsert xs r by simp [dictInsert, h]]
        have hcond : (r.record_id ∈ dictKeys (x :: xs)) ↔ r.record_id ∈ dictKeys xs := by
          rw [dictKeys_cons]
          simp [List.mem_cons]
          intro hh
          exact absurd hh.symm h
        by_cases hm : r.record_id ∈ dictKeys xs
        · rw [if_pos (hcond.mpr hm)]
          simp [ih, hm]
        · rw [if_neg (fun hh => hm (hcond.mp hh))]
          simp [ih, hm]

theorem dictFind_dictInsert (l : List CredentialRecord) (r : CredentialRecord) (k : String) :
    dictFind (dictInsert l r) k = if k = r.record_id then some r else dictFind l k := by
  induction l with
  | nil =>
      by_cases h : k = r.record_id
      · simp [dictInsert, dictFind_cons, dictFind_nil, h]
      · simp [dictInsert, dictFind_cons, dictFind_nil, h]
        exact fun hh => h hh.symm
  | cons x xs ih =>
      by_cases h : x.record_id = r.record_id
      · rw [show dictInsert (x :: xs) r = r :: xs by simp [dictInsert, h]]
        by_cases hk : k = r.record_id
        · rw [dictFind_cons, if_pos hk.symm, if_pos hk]
        · rw [dictFind_cons, if_neg (fun hh => hk hh.symm), if_neg hk, dictFind_cons,
              if_neg (fun hh : x.record_id = k => hk (hh ▸ h.symm ▸ rfl))]
      · rw [show dictInsert (x :: xs) r = x :: dictInsert xs r by simp [dictInsert, h]]
        by_cases hk : k = r.record_id
        · rw [dictFind_cons, if_neg (fun hh : x.record_id = k => h (hk ▸ hh)), ih, if_pos hk,
              if_pos hk]
        · rw [dictFind_cons, dictFind_cons, ih, if_neg hk, if_neg hk]

theorem upsertMerge_cons (current : List CredentialRecord) (r : CredentialRecord)
    (rest : List CredentialRecord) (now : String) :
    upsertMerge current (r :: rest) now =
      upsertMerge (dictInsert current (mergeItem current r now)) rest now := rfl

theorem length_upsertMerge (batch current : List CredentialRecord) (now : String) :
    (upsertMerge current batch now).length = current.length + newIds current batch := by
  induction batch generalizing current with
  | nil => simp [upsertMerge, newIds]
  | cons r rest ih =>
      rw [upsertMerge_cons, ih]
      have hkeys := dictKeys_dictInsert current (mergeItem current r now)
      have hlen := length_dictInsert current (mergeItem current r now)
      rw [mergeItem_record_id] at hkeys hlen
      by_cases h : r.record_id ∈ dictKeys current
      · rw [if_pos h] at hkeys hlen
        have hnew : newIds (dictInsert current (mergeItem current r now)) rest
            = newIds current (r :: rest) := by
          unfold newIds
          rw [hkeys]
          simp only [List.map_cons, List.toFinset_cons]
          rw [Finset.insert_sdiff_of_mem _ (by simpa using h)]
        rw [hnew, hlen]
      · rw [if_neg h] at hkeys hlen
        have hset : (dictKeys (dictInsert current (mergeItem current r now))).toFinset
            = insert r.record_id (dictKeys current).toFinset := by
          rw [hkeys]
          simp only [List.toFinset_append, List.toFinset_cons, List.toFinset_nil]
          rw [Finset.union_comm, Finset.insert_union, Finset.empty_union]
        have hnotmem : r.record_id ∉ (dictKeys current).toFinset := by simpa using h
        have hleft : newIds (dictInsert current (mergeItem current r now)) rest
            = (((rest.map (fun r => r.record_id)).toFinset \ (dictKeys current).toFinset).erase
                r.record_id).card := by
          unfold newIds
          rw [hset, Finset.sdiff_insert]
        have hright : newIds current (r :: rest)
            = (insert r.record_id
                ((rest.map (fun r => r.record_id)).toFinset \ (dictKeys current).toFinset)).card := by
          unfold newIds
          simp only [List.map_cons, List.toFinset_cons]
          rw [Finset.insert_sdiff_of_not_mem _ hnotmem]
        rw [hleft, hlen, hright]
        by_cases hx : r.record_id ∈
            (rest.map (fun r => r.record_id)).toFinset \ (dictKeys current).toFinset
        · rw [Finset.card_erase_of_mem hx, Finset.insert_eq_self.mpr hx]
          have : 0 < ((rest.map (fun r => r.record_id)).toFinset \
              (dictKeys current).toFinset).card := Finset.card_pos.mpr ⟨_, hx⟩
          omega
        · rw [Finset.erase_eq_of_not_mem hx, Finset.card_insert_of_not_mem hx]
          omega

theorem created_at_preserved_upsertMerge (batch : List CredentialRecord)
    (current : List CredentialRecord) (now k : String) (old : CredentialRecord)
    (hfind : dictFind current k = some old) :
    ∃ item, dictFind (upsertMerge current batch now) k = some item ∧
      item.created_at = old.created_at := by
  induction batch generalizing current old with
  | nil => exact ⟨old, hfind, rfl⟩
  | cons r rest ih =>
      rw [upsertMerge_cons]
      by_cases hk : k = r.record_id
      · have hmerge : dictFind current (mergeItem current r now).record_id
            = some old := by rw [mergeItem_record_id, ← hk]; exact hfind
        have hfind1 : dictFind (dictInsert current (mergeItem current r now)) k
            = some (mergeItem current r now) := by
          rw [dictFind_dictInsert, mergeItem_record_id, if_pos hk]
        have hcreated : (mergeItem current r now).created_at = old.created_at := by
          unfold mergeItem
          simp only [hk ▸ hfind]
        obtain ⟨item, hi, hc⟩ := ih (dictInsert current (mergeItem current r now))
          (mergeItem current r now) hfind1
        exact ⟨item, hi, hc.trans hcreated⟩
      · have hfind1 : dictFind (dictInsert current (mergeItem current r now)) k
            = some old := by
          rw [dictFind_dictInsert, mergeItem_record_id, if_neg hk]
          exact hfind
        exact ih (dictInsert current (mergeItem current r now)) old hfind1

theorem updated_at_after_upsertMerge_preserved (batch : List CredentialRecord)
    (current : List CredentialRecord) (now k : String) (item : CredentialRecord)
    (hfind : dictFind current k = some item) (hup : item.updated_at = now) :
    ∃ item1, dictFind (upsertMerge current batch now) k = some item1 ∧
      item1.updated_at = now := by
  induction batch generalizing current item with
  | nil => exact ⟨item, hfind, hup⟩
  | cons r rest ih =>
      rw [upsertMerge_cons]
      by_cases hk : k = r.record_id
      · have hfind1 : dictFind (dictInsert current (mergeItem current r now)) k
            = some (mergeItem current r now) := by
          rw [dictFind_dictInsert, mergeItem_record_id, if_pos hk]
        exact ih (dictInsert current (mergeItem current r now)) (mergeItem current r now)
          hfind1 rfl
      · have hfind1 : dictFind (dictInsert current (mergeItem current r now)) k
            = some item := by
          rw [dictFind_dictInsert, mergeItem_record_id, if_neg hk]
          exact hfind
        exact ih (dictInsert current (mergeItem current r now)) item hfind1 hup

theorem updated_at_refreshed_upsertMerge (batch : List CredentialRecord)
    (current : List CredentialRecord) (now : String) (r : CredentialRecord)
    (hr : r ∈ batch) :
    ∃ item, dictFind (upsertMerge current batch now) r.record_id = some item ∧
      item.updated_at = now := by
  induction batch generalizing current with
  | nil => cases hr
  | cons b rest ih =>
      rw [upsertMerge_cons]
      rcases List.mem_cons.mp hr with hb | hrest
      · subst hb
        have hfind1 : dictFind (dictInsert current (mergeItem current r now)) r.record_id
            = some (mergeItem current r now) := by
          rw [dictFind_dictInsert, mergeItem_record_id, if_pos rfl]
        exact updated_at_after_upsertMerge_preserved rest _ now r.record_id
          (mergeItem current r now) hfind1 rfl
      · exact ih _ hrest

theorem dictInsert_of_not_mem (l : List CredentialRecord) (r : CredentialRecord)
    (h : r.record_id ∉ dictKeys l) : dictInsert l r = l ++ [r] := by
  induction l with
  | nil => rfl
  | cons x xs ih =>
      rw [dictKeys_cons, List.mem_cons] at h
      push_neg at h
      have hne : ¬ (x.record_id = r.record_id) := fun hh => h.1 hh.symm
      rw [show dictInsert (x :: xs) r = x :: dictInsert xs r by
            simp [dictInsert, hne]]
      rw [ih h.2, List.cons_append]

theorem foldl_dictInsert_of_disjoint (l : List CredentialRecord) :
    ∀ acc : List CredentialRecord, (dictKeys l).Nodup →
    (∀ k ∈ dictKeys l, k ∉ dictKeys acc) → l.foldl dictInsert acc = acc ++ l := by
  induction l with
  | nil => intro acc _ _; simp
  | cons x xs ih =>
      intro acc hnodup hdisj
      rw [dictKeys_cons] at hnodup hdisj
      have hx : x.record_id ∉ dictKeys acc := hdisj x.record_id (by simp)
      have step : List.foldl dictInsert acc (x :: xs)
          = List.foldl dictInsert (acc ++ [x]) xs := by
        rw [List.foldl_cons, dictInsert_of_not_mem acc x hx]
      rw [step, ih (acc ++ [x]) (List.nodup_cons.mp hnodup).2]
      · simp
      · intro k hk
        have hkacc : k ∉ dictKeys acc := hdisj k (by simp [hk])
        have hkx : k ≠ x.record_id := by
          intro hh
          exact (List.nodup_cons.mp hnodup).1 (hh ▸ hk)
        simp [dictKeys, List.mem_map] at hkacc ⊢
        exact ⟨hkacc, hkx⟩

theorem buildDict_eq_self (l : List CredentialRecord) (h : (dictKeys l).Nodup) :
    buildDict l = l := by
  unfold buildDict
  rw [foldl_dictInsert_of_disjoint l [] h (by intro k _; simp [dictKeys_nil])]
  simp


/-! ### C2 and C7 -/

theorem load_ok_metaFile (st : VaultState) (pw : String) (payload : VaultPayload)
    (h : load_payload st pw = .ok payload) : ∃ meta, st.metaFile = some meta := by
  cases hm : st.metaFile
  · rw [load_payload] at h
    rw [show vaultExists st = false by simp [vaultExists, hm]] at h
    simp at h
  · exact ⟨_, rfl⟩

/-- Claim C2: for every `(owner, service, username)` triple, deriving
`record_id` twice yields the same value; upserting records whose
`record_id` is already stored never grows the stored record count; the
merge preserves the existing record's `created_at` and refreshes
`updated_at`; and `upsert_records` returns exactly the number of distinct
incoming record ids not previously in the collection. -/
theorem c2_stable_id_and_idempotent_upsert
    (st : VaultState) (pw now : String) (payload : VaultPayload)
    (batch : List CredentialRecord)
    (hload : load_payload st pw = .ok payload)
    (hnodup : (dictKeys payload.records).Nodup) :
    (∀ owner service username, stable_record_id owner service username
        = stable_record_id owner service username) ∧
    (∃ st1, upsert_records st pw batch now = .ok (newIds payload.records batch, st1)) ∧
    (upsertMerge payload.records batch now).length
        = payload.records.length + newIds payload.records batch ∧
    ((∀ r ∈ batch, r.record_id ∈ dictKeys payload.records) →
      (upsertMerge payload.records batch now).length = payload.records.length) ∧
    (∀ r ∈ batch, ∀ old, dictFind payload.records r.record_id = some old →
      ∃ item, dictFind (upsertMerge payload.records batch now) r.record_id = some item ∧
        item.created_at = old.created_at ∧ item.updated_at = now) := by
  have hbuild : buildDict payload.records = payload.records := buildDict_eq_self _ hnodup
  obtain ⟨meta, hmeta⟩ := load_ok_metaFile st pw payload hload
  refine ⟨fun _ _ _ => rfl, ?_, length_upsertMerge batch payload.records now, ?_, ?_⟩
  · refine ⟨{ st with blobFile := some (fernetEncrypt (derive_key pw meta)
        { records := upsertMerge payload.records batch now,
          created_at := payload.created_at, updated_at := now }) }, ?_⟩
    rw [upsert_records, hload]
    simp only [hbuild, save_payload, hmeta]
    rw [length_upsertMerge batch payload.records now, Nat.add_sub_cancel_left]
  · intro hall
    rw [length_upsertMerge batch payload.records now]
    have hzero : newIds payload.records batch = 0 := by
      unfold newIds
      rw [Finset.card_eq_zero, Finset.sdiff_eq_empty_iff_subset]
      intro a ha
      rw [List.mem_toFinset, List.mem_map] at ha
      obtain ⟨r, hr, hrid⟩ := ha
      rw [List.mem_toFinset]
      exact hrid ▸ hall r hr
    rw [hzero]
    rfl
  · intro r hr old hfind
    obtain ⟨item, hitem, hcreated⟩ :=
      created_at_preserved_upsertMerge batch payload.records now r.record_id old hfind
    obtain ⟨item1, hitem1, hup⟩ :=
      updated_at_refreshed_upsertMerge batch payload.records now r hr
    refine ⟨item, hitem, hcreated, ?_⟩
    rw [hitem] at hitem1
    cases hitem1
    exact hup

/-- Witness for C2: re-importing the stored record id into a concrete
one-record vault returns a zero new-record count, keeps the stored count
at one, and preserves `created_at` while refreshing `updated_at`. -/
theorem c2_witness :
    (∀ owner service username, stable_record_id owner service username
        = stable_record_id owner service username) ∧
    (∃ st1, upsert_records fxVaultState "pw" fxBatchA "t1"
        = .ok (newIds fxVaultPayload.records fxBatchA, st1)) ∧
    (upsertMerge fxVaultPayload.records fxBatchA "t1").length
        = fxVaultPayload.records.length + newIds fxVaultPayload.records fxBatchA ∧
    ((∀ r ∈ fxBatchA, r.record_id ∈ dictKeys fxVaultPayload.records) →
      (upsertMerge fxVaultPayload.records fxBatchA "t1").length
        = fxVaultPayload.records.length) ∧
    (∀ r ∈ fxBatchA, ∀ old, dictFind fxVaultPayload.records r.record_id = some old →
      ∃ item, dictFind (upsertMerge fxVaultPayload.records fxBatchA "t1") r.record_id
          = some item ∧ item.created_at = old.created_at ∧ item.updated_at = "t1") :=
  c2_stable_id_and_idempotent_upsert fxVaultState "pw" "t1" fxVaultPayload fxBatchA rfl
    (by decide)

/-- Claim C7: `task_id` is a pure function of `(record_id, action_type)`,
and enqueueing a task whose `task_id` already occurs in the queue leaves
the queue unchanged — in particular its length is unchanged. -/
theorem c7_task_id_pure_and_idempotent_enqueue (tasks : List ActionTask) (task : ActionTask)
    (h : ∃ existing ∈ tasks, existing.task_id = task.task_id) :
    (∀ record_id action_type, task_id_of record_id action_type
        = task_id_of record_id action_type) ∧
    queue_task tasks task = tasks ∧
    (queue_task tasks task).length = tasks.length := by
  have hany : tasks.any (fun existing => existing.task_id = task.task_id) = true := by
    obtain ⟨e, he, heq⟩ := h
    exact List.any_eq_true.mpr ⟨e, he, by simp [heq]⟩
  refine ⟨fun _ _ => rfl, ?_, ?_⟩
  · simp [queue_task, hany]
  · simp [queue_task, hany]

/-- Witness for C7: re-queuing the `("aaa", rotate_password)` task on a
queue that already holds it leaves the queue untouched. -/
theorem c7_witness :
    (∀ record_id action_type, task_id_of record_id action_type
        = task_id_of record_id action_type) ∧
    queue_task [fxTaskQueued] fxTaskDup = [fxTaskQueued] ∧
    (queue_task [fxTaskQueued] fxTaskDup).length = [fxTaskQueued].length :=
  c7_task_id_pure_and_idempotent_enqueue [fxTaskQueued] fxTaskDup
    ⟨fxTaskQueued, by simp, rfl⟩

/-! ### Risk-escalation lemmas (C4, C8) -/

theorem riskRank_le_two (risk : String) : riskRank risk ≤ 2 := by
  unfold riskRank
  split_ifs <;> omega

theorem localRiskStep_risk (record : CredentialRecord) :
    (localRiskStep record).1 = "medium" ∨ (localRiskStep record).1 = "low" := by
  unfold localRiskStep
  split_ifs <;> simp

theorem pwdCheckStep_mono (risk : String) (reasons : List String)
    (record : CredentialRecord) (opc : Bool) (oracle : Except String Nat) :
    (pwdCheckStep risk reasons record opc oracle).1 = risk ∨
    (pwdCheckStep risk reasons record opc oracle).1 = "high" := by
  by_cases hg : pwdGuard opc record = true
  · cases oracle with
    | error e => simp [pwdCheckStep, hg]
    | ok n =>
        by_cases hn : n > 0
        · simp [pwdCheckStep, hg, hn]
        · simp [pwdCheckStep, hg, hn]
  · cases oracle <;> simp [pwdCheckStep, hg]

theorem emailCheckStep_mono (risk : String) (reasons : List String)
    (record : CredentialRecord) (oec : Bool) (key : Option String)
    (oracle : Except String (List String)) :
    (emailCheckStep risk reasons record oec key oracle).1 = risk ∨
    (emailCheckStep risk reasons record oec key oracle).1 = "high" := by
  by_cases hg : emailGuard oec key record = true
  · cases oracle with
    | error e => simp [emailCheckStep, hg]
    | ok breaches =>
        by_cases hb : breaches = []
        · simp [emailCheckStep, hg, hb]
        · simp [emailCheckStep, hg, hb]
  · cases oracle <;> simp [emailCheckStep, hg]

/-- Claim C4: within a single call of the risk assessment the risk level
only escalates along `low → medium → high`: each sub-check's output ranks
at least as high as its input, a `high` set by the remote password check
is never lowered by the later email check, and the assessment returns the
final sub-check's level. -/
theorem c4_monotonic_risk (record : CredentialRecord) (opc oec : Bool)
    (key : Option String) (oracles : AssessOracles)
    (cache : List (String × BreachCacheEntry)) (now : String) :
    riskRank "low" ≤ riskRank (localRiskStep record).1 ∧
    riskRank (localRiskStep record).1 ≤
      riskRank (pwdCheckStep (localRiskStep record).1 (localRiskStep record).2 record opc
        oracles.pwnedResult).1 ∧
    riskRank (pwdCheckStep (localRiskStep record).1 (localRiskStep record).2 record opc
        oracles.pwnedResult).1 ≤
      riskRank (emailCheckStep
        (pwdCheckStep (localRiskStep record).1 (localRiskStep record).2 record opc
          oracles.pwnedResult).1
        (pwdCheckStep (localRiskStep record).1 (localRiskStep record).2 record opc
          oracles.pwnedResult).2.1 record oec key oracles.emailResult).1 ∧
    ((pwdCheckStep (localRiskStep record).1 (localRiskStep record).2 record opc
        oracles.pwnedResult).1 = "high" →
      (emailCheckStep
        (pwdCheckStep (localRiskStep record).1 (localRiskStep record).2 record opc
          oracles.pwnedResult).1
        (pwdCheckStep (localRiskStep record).1 (localRiskStep record).2 record opc
          oracles.pwnedResult).2.1 record oec key oracles.emailResult).1 = "high") ∧
    (assess_record_risk record opc oec key oracles cache now).1.risk_level =
      (emailCheckStep
        (pwdCheckStep (localRiskStep record).1 (localRiskStep record).2 record opc
          oracles.pwnedResult).1
        (pwdCheckStep (localRiskStep record).1 (localRiskStep record).2 record opc
          oracles.pwnedResult).2.1 record oec key oracles.emailResult).1 := by
  refine ⟨Nat.zero_le _, ?_, ?_, ?_, rfl⟩
  · rcases pwdCheckStep_mono (localRiskStep record).1 (localRiskStep record).2 record opc
        oracles.pwnedResult with h | h
    · rw [h]
    · rw [h]
      exact riskRank_le_two _
  · rcases emailCheckStep_mono
        (pwdCheckStep (localRiskStep record).1 (localRiskStep record).2 record opc
          oracles.pwnedResult).1
        (pwdCheckStep (localRiskStep record).1 (localRiskStep record).2 record opc
          oracles.pwnedResult).2.1 record oec key oracles.emailResult with h | h
    · rw [h]
    · rw [h]
      exact riskRank_le_two _
  · intro hhigh
    rcases emailCheckStep_mono
        (pwdCheckStep (localRiskStep record).1 (localRiskStep record).2 record opc
          oracles.pwnedResult).1
        (pwdCheckStep (localRiskStep record).1 (localRiskStep record).2 record opc
          oracles.pwnedResult).2.1 record oec key oracles.emailResult with h | h
    · rw [h, hhigh]
    · exact h


/-- Witness for C4 at a concrete record whose remote password check
reports a positive pwned count (so the implication is exercised). -/
theorem c4_witness :
    riskRank "low" ≤ riskRank (localRiskStep fxRecordA).1 ∧
    riskRank (localRiskStep fxRecordA).1 ≤
      riskRank (pwdCheckStep (localRiskStep fxRecordA).1 (localRiskStep fxRecordA).2 fxRecordA
        true (AssessOracles.mk (.ok 3) (.ok [])).pwnedResult).1 ∧
    riskRank (pwdCheckStep (localRiskStep fxRecordA).1 (localRiskStep fxRecordA).2 fxRecordA
        true (AssessOracles.mk (.ok 3) (.ok [])).pwnedResult).1 ≤
      riskRank (emailCheckStep
        (pwdCheckStep (localRiskStep fxRecordA).1 (localRiskStep fxRecordA).2 fxRecordA
          true (AssessOracles.mk (.ok 3) (.ok [])).pwnedResult).1
        (pwdCheckStep (localRiskStep fxRecordA).1 (localRiskStep fxRecordA).2 fxRecordA
          true (AssessOracles.mk (.ok 3) (.ok [])).pwnedResult).2.1 fxRecordA
        false none (AssessOracles.mk (.ok 3) (.ok [])).emailResult).1 ∧
    ((pwdCheckStep (localRiskStep fxRecordA).1 (localRiskStep fxRecordA).2 fxRecordA
        true (AssessOracles.mk (.ok 3) (.ok [])).pwnedResult).1 = "high" →
      (emailCheckStep
        (pwdCheckStep (localRiskStep fxRecordA).1 (localRiskStep fxRecordA).2 fxRecordA
          true (AssessOracles.mk (.ok 3) (.ok [])).pwnedResult).1
        (pwdCheckStep (localRiskStep fxRecordA).1 (localRiskStep fxRecordA).2 fxRecordA
          true (AssessOracles.mk (.ok 3) (.ok [])).pwnedResult).2.1 fxRecordA
        false none (AssessOracles.mk (.ok 3) (.ok [])).emailResult).1 = "high") ∧
    (assess_record_risk fxRecordA true false none (AssessOracles.mk (.ok 3) (.ok [])) []
        "t1").1.risk_level =
      (emailCheckStep
        (pwdCheckStep (localRiskStep fxRecordA).1 (localRiskStep fxRecordA).2 fxRecordA
          true (AssessOracles.mk (.ok 3) (.ok [])).pwnedResult).1
        (pwdCheckStep (localRiskStep fxRecordA).1 (localRiskStep fxRecordA).2 fxRecordA
          true (AssessOracles.mk (.ok 3) (.ok [])).pwnedResult).2.1 fxRecordA
        false none (AssessOracles.mk (.ok 3) (.ok [])).emailResult).1 :=
  c4_monotonic_risk fxRecordA true false none (AssessOracles.mk (.ok 3) (.ok [])) [] "t1"


/-- Claim C8: a password is classified weak exactly when its length is
below 14 or it lacks a lowercase letter, an uppercase letter, a digit, or
a symbol; for every record with a weak password a single assessment with
both remote checks disabled yields risk at least `medium`; in particular
`"abc123"` is weak and already rates `medium` after the local check,
before any remote check runs. -/
theorem c8_weak_password_medium :
    (∀ password, is_weak_password password = true ↔ weakPasswordSpec password) ∧
    (∀ (record : CredentialRecord) (key : Option String) (oracles : AssessOracles)
        (cache : List (String × BreachCacheEntry)) (now : String),
      is_weak_password record.password = true →
        riskRank "medium" ≤
          riskRank (assess_record_risk record false false key oracles cache now).1.risk_level) ∧
    is_weak_password "abc123" = true ∧
    (∀ record : CredentialRecord, record.password = "abc123" →
      (localRiskStep record).1 = "medium") := by
  refine ⟨?_, ?_, by decide, ?_⟩
  · intro password
    by_cases hlen : password.length < 14
    · simp [is_weak_password, weakPasswordSpec, hlen]
    · constructor
      · intro hw
        rw [weakPasswordSpec]
        refine Or.inr ?_
        intro hand
        have hfalse : is_weak_password password = false := by
          simp [is_weak_password, hlen, List.any_eq_true]
          exact ⟨hand.1, hand.2.1, hand.2.2.1, hand.2.2.2⟩
        rw [hw] at hfalse
        cases hfalse
      · intro hspec
        rcases hspec with h14 | hnot
        · exact absurd h14 hlen
        · by_contra hw
          rw [Bool.not_eq_true] at hw
          simp [is_weak_password, hlen, List.any_eq_true] at hw
          exact hnot ⟨hw.1, hw.2.1, hw.2.2.1, hw.2.2.2⟩
  · intro record key oracles cache now hweak
    have hrisk : (assess_record_risk record false false key oracles cache now).1.risk_level
        = "medium" := by
      simp [assess_record_risk, pwdCheckStep, emailCheckStep, pwdGuard, emailGuard,
            localRiskStep, hweak]
    rw [hrisk]
  · intro record h
    simp [localRiskStep, h, show is_weak_password "abc123" = true by decide]

/-- Witness for C8 at the concrete password `"abc123"`. -/
theorem c8_witness :
    (is_weak_password "abc123" = true ↔ weakPasswordSpec "abc123") ∧
    riskRank "medium" ≤ riskRank
      (assess_record_risk fxWeakRecord false false none
        (AssessOracles.mk (.ok 0) (.ok [])) [] "t1").1.risk_level ∧
    is_weak_password "abc123" = true ∧
    (localRiskStep fxWeakRecord).1 = "medium" :=
  ⟨c8_weak_password_medium.1 "abc123",
   c8_weak_password_medium.2.1 fxWeakRecord none (AssessOracles.mk (.ok 0) (.ok [])) [] "t1"
     (by decide),
   c8_weak_password_medium.2.2.1,
   c8_weak_password_medium.2.2.2 fxWeakRecord rfl⟩


/-! ### Order lemmas for the triage sort (C5) -/

theorem charToNat_inj (a b : Char) (h : a.toNat = b.toNat) : a = b :=
  Char.ext (UInt32.ext (by simpa [Char.toNat] using h))

theorem lexLt_irrefl (l : List Char) : lexLt l l = false := by
  induction l with
  | nil => rfl
  | cons x xs ih => simp only [lexLt, if_pos rfl]; exact ih

theorem lexLt_trans : ∀ a b c : List Char,
    lexLt a b = true → lexLt b c = true → lexLt a c = true := by
  intro a
  induction a with
  | nil =>
      intro b c hab hbc
      cases c with
      | nil =>
          cases b with
          | nil => simp [lexLt] at hab
          | cons y ys => simp [lexLt] at hbc
      | cons z zs => simp [lexLt]
  | cons x xs ih =>
      intro b c hab hbc
      cases b with
      | nil => simp [lexLt] at hab
      | cons y ys =>
          cases c with
          | nil => simp [lexLt] at hbc
          | cons z zs =>
              by_cases hxy : x = y
              · by_cases hyz : y = z
                · have hxz : x = z := hxy.trans hyz
                  simp only [lexLt, if_pos hxy] at hab
                  simp only [lexLt, if_pos hyz] at hbc
                  simp only [lexLt, if_pos hxz]
                  exact ih ys zs hab hbc
                · have hxz : ¬ x = z := fun h => hyz (hxy ▸ h)
                  simp only [lexLt, if_neg hyz] at hbc
                  simp only [lexLt, if_neg hxz]
                  rw [hxy]
                  exact hbc
              · by_cases hyz : y = z
                · have hxz : ¬ x = z := fun h => hxy (h.trans hyz.symm)
                  simp only [lexLt, if_neg hxy] at hab
                  simp only [lexLt, if_neg hxz]
                  rw [← hyz]
                  exact hab
                · simp only [lexLt, if_neg hxy] at hab
                  simp only [lexLt, if_neg hyz] at hbc
                  have h1 : x.toNat < y.toNat := of_decide_eq_true hab
                  have h2 : y.toNat < z.toNat := of_decide_eq_true hbc
                  have h3 : x.toNat < z.toNat := h1.trans h2
                  have hxz : ¬ x = z := fun h => by rw [h] at h3; omega
                  simp only [lexLt, if_neg hxz]
                  exact decide_eq_true h3

theorem lexLt_not_symm : ∀ a b : List Char,
    lexLt a b = false → lexLt b a = false → a = b := by
  intro a
  induction a with
  | nil =>
      intro b hab _
      cases b with
      | nil => rfl
      | cons y ys => simp [lexLt] at hab
  | cons x xs ih =>
      intro b hab hba
      cases b with
      | nil => simp [lexLt] at hba
      | cons y ys =>
          by_cases hxy : x = y
          · subst hxy
            simp only [lexLt, if_pos rfl] at hab hba
            rw [ih ys hab hba]
          · simp only [lexLt, if_neg hxy, if_neg (fun h : y = x => hxy h.symm)] at hab hba
            have h1 : ¬ x.toNat < y.toNat := of_decide_eq_false hab
            have h2 : ¬ y.toNat < x.toNat := of_decide_eq_false hba
            exact absurd (charToNat_inj x y (by omega)) hxy

theorem keyLe_char (P : List String) (a b : CredentialRecord) :
    keyLe P a b = true ↔
      ((sortKey P a).1 < (sortKey P b).1 ∨
       ((sortKey P a).1 = (sortKey P b).1 ∧
         (lexLt (sortKey P a).2.1 (sortKey P b).2.1 = true ∨
          ((sortKey P a).2.1 = (sortKey P b).2.1 ∧
            (lexLt (sortKey P a).2.2 (sortKey P b).2.2 = true ∨
             (sortKey P a).2.2 = (sortKey P b).2.2))))) := by
  unfold keyLe
  split_ifs with h1 h2 h3 h4 h5 h6
  · simp [h1]
  · constructor
    · intro h
      cases h
    · intro h
      rcases h with h | ⟨he, _⟩
      · omega
      · omega
  · have he : (sortKey P a).1 = (sortKey P b).1 := by omega
    simp [he, h3]
  · constructor
    · intro h
      cases h
    · intro h
      rcases h with h | ⟨_, hs⟩
      · omega
      · rcases hs with hl | ⟨hse, _⟩
        · exact h3 hl
        · rw [hse, lexLt_irrefl] at h4
          cases h4
  · have he : (sortKey P a).1 = (sortKey P b).1 := by omega
    have hse : (sortKey P a).2.1 = (sortKey P b).2.1 :=
      lexLt_not_symm _ _ (by simpa using h3) (by simpa using h4)
    simp [he, hse, h5]
  · constructor
    · intro h
      cases h
    · intro h
      rcases h with h | ⟨_, hs⟩
      · omega
      · rcases hs with hl | ⟨_, hu⟩
        · exact h3 hl
        · rcases hu with hlu | hue
          · exact h5 hlu
          · rw [hue, lexLt_irrefl] at h6
            cases h6
  · have he : (sortKey P a).1 = (sortKey P b).1 := by omega
    have hse : (sortKey P a).2.1 = (sortKey P b).2.1 :=
      lexLt_not_symm _ _ (by simpa using h3) (by simpa using h4)
    have hue : (sortKey P a).2.2 = (sortKey P b).2.2 :=
      lexLt_not_symm _ _ (by simpa using h5) (by simpa using h6)
    simp [he, hse, hue]

theorem keyLe_trans (P : List String) (a b c : CredentialRecord)
    (hab : keyLe P a b = true) (hbc : keyLe P b c = true) : keyLe P a c = true := by
  rw [keyLe_char] at hab hbc ⊢
  rcases hab with h1 | ⟨he1, hs1⟩
  · rcases hbc with h2 | ⟨he2, _⟩
    · exact Or.inl (h1.trans h2)
    · exact Or.inl (he2 ▸ h1)
  · rcases hbc with h2 | ⟨he2, hs2⟩
    · exact Or.inl (he1 ▸ h2)
    · refine Or.inr ⟨he1.trans he2, ?_⟩
      rcases hs1 with hl1 | ⟨hse1, hu1⟩
      · rcases hs2 with hl2 | ⟨hse2, _⟩
        · exact Or.inl (lexLt_trans _ _ _ hl1 hl2)
        · exact Or.inl (hse2 ▸ hl1)
      · rcases hs2 with hl2 | ⟨hse2, hu2⟩
        · exact Or.inl (hse1 ▸ hl2)
        · refine Or.inr ⟨hse1.trans hse2, ?_⟩
          rcases hu1 with hlu1 | hue1
          · rcases hu2 with hlu2 | hue2
            · exact Or.inl (lexLt_trans _ _ _ hlu1 hlu2)
            · exact Or.inl (hue2 ▸ hlu1)
          · rcases hu2 with hlu2 | hue2
            · exact Or.inl (hue1 ▸ hlu2)
            · exact Or.inr (hue1.trans hue2)

theorem keyLe_total (P : List String) (a b : CredentialRecord) :
    keyLe P a b = true ∨ keyLe P b a = true := by
  rw [keyLe_char, keyLe_char]
  rcases Nat.lt_trichotomy (sortKey P a).1 (sortKey P b).1 with h | h | h
  · exact Or.inl (Or.inl h)
  · rcases Bool.eq_false_or_eq_true (lexLt (sortKey P a).2.1 (sortKey P b).2.1) with hs | hs
    · exact Or.inl (Or.inr ⟨h, Or.inl hs⟩)
    · rcases Bool.eq_false_or_eq_true (lexLt (sortKey P b).2.1 (sortKey P a).2.1) with hs1 | hs1
      · exact Or.inr (Or.inr ⟨h.symm, Or.inl hs1⟩)
      · have hse := lexLt_not_symm _ _ hs hs1
        rcases Bool.eq_false_or_eq_true (lexLt (sortKey P a).2.2 (sortKey P b).2.2) with hu | hu
        · exact Or.inl (Or.inr ⟨h, Or.inr ⟨hse, Or.inl hu⟩⟩)
        · rcases Bool.eq_false_or_eq_true
              (lexLt (sortKey P b).2.2 (sortKey P a).2.2) with hu1 | hu1
          · exact Or.inr (Or.inr ⟨h.symm, Or.inr ⟨hse.symm, Or.inl hu1⟩⟩)
          · exact Or.inl (Or.inr ⟨h, Or.inr ⟨hse, Or.inr (lexLt_not_symm _ _ hu hu1)⟩⟩)
  · exact Or.inr (Or.inl h)

theorem insertStable_perm (le : CredentialRecord → CredentialRecord → Bool)
    (x : CredentialRecord) (l : List CredentialRecord) :
    (insertStable le x l).Perm (x :: l) := by
  induction l with
  | nil => exact List.Perm.refl _
  | cons y ys ih =>
      unfold insertStable
      by_cases h : le y x = true
      · rw [if_pos h]
        exact (ih.cons y).trans (List.Perm.swap x y ys)
      · rw [if_neg h]

theorem insertStable_pairwise (le : CredentialRecord → CredentialRecord → Bool)
    (htrans : ∀ a b c, le a b = true → le b c = true → le a c = true)
    (htotal : ∀ a b, le a b = true ∨ le b a = true)
    (x : CredentialRecord) (l : List CredentialRecord)
    (hl : l.Pairwise (fun a b => le a b = true)) :
    (insertStable le x l).Pairwise (fun a b => le a b = true) := by
  induction l with
  | nil => simp [insertStable]
  | cons y ys ih =>
      have hl1 := (List.pairwise_cons.mp hl).1
      have hl2 := (List.pairwise_cons.mp hl).2
      unfold insertStable
      by_cases h : le y x = true
      · rw [if_pos h]
        rw [List.pairwise_cons]
        refine ⟨?_, ih hl2⟩
        intro z hz
        have hz1 : z ∈ x :: ys := (insertStable_perm le x ys).mem_iff.mp hz
        rcases List.mem_cons.mp hz1 with rfl | hz2
        · exact h
        · exact hl1 z hz2
      · rw [if_neg h]
        have hxy : le x y = true := by
          rcases htotal x y with h1 | h1
          · exact h1
          · exact absurd h1 h
        rw [List.pairwise_cons]
        refine ⟨?_, hl⟩
        intro z hz
        rcases List.mem_cons.mp hz with rfl | hz1
        · exact hxy
        · exact htrans x y z hxy (hl1 z hz1)

theorem pySorted_perm (le : CredentialRecord → CredentialRecord → Bool)
    (l : List CredentialRecord) : (pySorted le l).Perm l := by
  suffices h : ∀ acc : List CredentialRecord,
      (l.foldl (fun acc x => insertStable le x acc) acc).Perm (acc ++ l) by
    simpa [pySorted] using h []
  induction l with
  | nil => intro acc; simp
  | cons x xs ih =>
      intro acc
      rw [List.foldl_cons]
      refine (ih (insertStable le x acc)).trans ?_
      have h1 : (insertStable le x acc ++ xs).Perm ((x :: acc) ++ xs) :=
        (insertStable_perm le x acc).append_right xs
      exact h1.trans List.perm_middle.symm

theorem pySorted_pairwise (le : CredentialRecord → CredentialRecord → Bool)
    (htrans : ∀ a b c, le a b = true → le b c = true → le a c = true)
    (htotal : ∀ a b, le a b = true ∨ le b a = true)
    (l : List CredentialRecord) :
    (pySorted le l).Pairwise (fun a b => le a b = true) := by
  suffices h : ∀ acc : List CredentialRecord, acc.Pairwise (fun a b => le a b = true) →
      (l.foldl (fun acc x => insertStable le x acc) acc).Pairwise
        (fun a b => le a b = true) by
    exact h [] (by simp)
  induction l with
  | nil => intro acc hacc; simpa using hacc
  | cons x xs ih =>
      intro acc hacc
      rw [List.foldl_cons]
      exact ih _ (insertStable_pairwise le htrans htotal x acc hacc)

theorem reviewRecord_sortKey (P : List String) (r : CredentialRecord)
    (dec : WorkflowDecision) (opc oec : Bool) (key : Option String)
    (tasks : List ActionTask) (cache : List (String × BreachCacheEntry)) (now : String) :
    sortKey P (reviewRecord r dec opc oec key tasks cache now).1 = sortKey P r := by
  unfold reviewRecord
  split_ifs <;> rfl

theorem guidedGo_map_sortKey (P : List String) (opc oec : Bool) (key : Option String)
    (decs : Nat → WorkflowDecision) (now : String) :
    ∀ (l : List CredentialRecord) (i : Nat) (tasks : List ActionTask)
      (cache : List (String × BreachCacheEntry)),
      ((guidedGo opc oec key decs now l i tasks cache).1.map (sortKey P))
        = l.map (sortKey P) := by
  intro l
  induction l with
  | nil => intro i tasks cache; rfl
  | cons r rest ih =>
      intro i tasks cache
      simp only [guidedGo, List.map_cons]
      rw [reviewRecord_sortKey, ih]

/-- Claim C5: the guided traversal visits records sorted by
`(priority_index(category), service, username)` — the sorted list is
ordered under `keyLe` and is a permutation of the input, and the session
preserves each visited record's sort key — and on the concrete example
(categories social/email/other plus a second social record under the
priority list `[email, banking, social]`) the visit order is email, then
the social records alphabetically by service, then the unlisted-category
record last. -/
theorem c5_guided_traversal_order :
    (∀ (records : List CredentialRecord) (settings : WorkspaceSettings),
      (sort_records records settings).Pairwise
        (fun a b => keyLe settings.priority_categories a b = true)) ∧
    (∀ (records : List CredentialRecord) (settings : WorkspaceSettings),
      (sort_records records settings).Perm records) ∧
    (∀ (records : List CredentialRecord) (settings : WorkspaceSettings)
        (opc oec : Bool) (key : Option String) (decs : Nat → WorkflowDecision)
        (tasks0 : List ActionTask) (cache0 : List (String × BreachCacheEntry)) (now : String),
      ((run_guided_session records settings opc oec key decs tasks0 cache0 now).1.map
          (sortKey settings.priority_categories))
        = (sort_records records settings).map (sortKey settings.priority_categories)) ∧
    (sort_records [fxRecSocial, fxRecEmail, fxRecOther, fxRecSocial2] fxSettings).map
        (fun r => r.record_id) = ["e1", "s2", "s1", "o1"] ∧
    ((run_guided_session [fxRecSocial, fxRecEmail, fxRecOther, fxRecSocial2] fxSettings
        false false none (fun _ => fxWfDecision) [] [] "t1").1.map (fun r => r.service))
      = ["Gmail", "Facebook", "Reddit", "Zzz"] := by
  refine ⟨?_, ?_, ?_, by decide, by decide⟩
  · intro records settings
    exact pySorted_pairwise _ (keyLe_trans settings.priority_categories)
      (keyLe_total settings.priority_categories) records
  · intro records settings
    exact pySorted_perm _ records
  · intro records settings opc oec key decs tasks0 cache0 now
    exact guidedGo_map_sortKey settings.priority_categories opc oec key decs now
      (sort_records records settings) 0 tasks0 cache0


/-! ### Executor lemmas (C3, C6, C9) -/

theorem mapFind_nil (q : String) : mapFind [] q = none := rfl

theorem mapFind_cons (a : String × CredentialRecord) (ps : RecordsMap) (q : String) :
    mapFind (a :: ps) q = if a.1 = q then some a.2 else mapFind ps q := by
  by_cases h : a.1 = q <;> simp [mapFind, h]

theorem mapFind_mapUpdate (m : RecordsMap) (k : String) (v : CredentialRecord) (q : String) :
    mapFind (mapUpdate m k v) q =
      if q = k then (mapFind m k).map (fun _ => v) else mapFind m q := by
  induction m with
  | nil =>
      by_cases h : q = k <;> simp [mapUpdate, mapFind_nil, h]
  | cons p ps ih =>
      by_cases h1 : p.1 = k
      · by_cases h2 : q = k
        · simp [mapUpdate, mapFind_cons, h1, h2]
        · have h2a : ¬ k = q := fun hh => h2 hh.symm
          have hpq : ¬ p.1 = q := fun hh => h2 (hh.symm.trans h1)
          simp [mapUpdate, mapFind_cons, h1, h2, h2a, hpq]
      · by_cases h2 : q = k
        · have hpq : ¬ p.1 = q := fun hh => h1 (hh.trans h2)
          simp only [h2] at ih
          simp [mapUpdate, mapFind_cons, h1, h2, hpq, ih]
        · simp [mapUpdate, mapFind_cons, h1, h2, ih]

theorem execStep_nonpending (pa : Bool) (sp : List (String × SiteProfile))
    (dec : ExecDecision) (now : String) (recs : RecordsMap) (task : ActionTask)
    (h : ¬ task.status = "pending") :
    execStep pa sp dec now recs task = (task, recs, []) := by
  simp [execStep, h]

theorem execStep_missing (pa : Bool) (sp : List (String × SiteProfile))
    (dec : ExecDecision) (now : String) (recs : RecordsMap) (task : ActionTask)
    (hp : task.status = "pending") (hm : mapFind recs task.record_id = none) :
    execStep pa sp dec now recs task =
      ({ task with
          status := "failed"
          detail := "Record missing in vault"
          updated_at := now }, recs, []) := by
  simp [execStep, hp, hm]

theorem execStep_deferred (pa : Bool) (sp : List (String × SiteProfile))
    (dec : ExecDecision) (now : String) (recs : RecordsMap) (task : ActionTask)
    (record : CredentialRecord)
    (hp : task.status = "pending") (hfind : mapFind recs task.record_id = some record)
    (hopen : dec.openNow = false) :
    execStep pa sp dec now recs task =
      ({ task with
          status := "skipped"
          detail := "User deferred"
          updated_at := now }, recs, []) := by
  simp [execStep, hp, hfind, hopen]

theorem execStep_open_status (pa : Bool) (sp : List (String × SiteProfile))
    (dec : ExecDecision) (now : String) (recs : RecordsMap) (task : ActionTask)
    (record : CredentialRecord)
    (hp : task.status = "pending") (hfind : mapFind recs task.record_id = some record)
    (hopen : dec.openNow = true) :
    (execStep pa sp dec now recs task).1.status
        = (if dec.markCompleted then "completed" else "failed") ∧
    (execStep pa sp dec now recs task).1.task_id = task.task_id ∧
    (execStep pa sp dec now recs task).2.2 =
      [{ timestamp := now, task_id := task.task_id, record_id := task.record_id,
         service := record.service, username := record.username,
         action_type := task.action_type,
         status := (if dec.markCompleted then "completed" else "failed") }] := by
  refine ⟨?_, ?_, ?_⟩
  · simp [execStep, hp, hfind, hopen]
  · simp [execStep, hp, hfind, hopen]
  · simp [execStep, hp, hfind, hopen]

theorem execStep_journal_ids (pa : Bool) (sp : List (String × SiteProfile))
    (dec : ExecDecision) (now : String) (recs : RecordsMap) (task : ActionTask) :
    ∀ e ∈ (execStep pa sp dec now recs task).2.2, e.task_id = task.task_id := by
  intro e he
  by_cases hp : task.status = "pending"
  · cases hfind : mapFind recs task.record_id with
    | none =>
        rw [execStep_missing pa sp dec now recs task hp hfind] at he
        simp at he
    | some record =>
        rcases Bool.eq_false_or_eq_true dec.openNow with hopen | hopen
        · rw [(execStep_open_status pa sp dec now recs task record hp hfind hopen).2.2] at he
          rw [List.mem_singleton] at he
          rw [he]
        · rw [execStep_deferred pa sp dec now recs task record hp hfind hopen] at he
          simp at he
  · rw [execStep_nonpending pa sp dec now recs task hp] at he
    simp at he

theorem execStep_preserves_find_none (pa : Bool) (sp : List (String × SiteProfile))
    (dec : ExecDecision) (now : String) (recs : RecordsMap) (task : ActionTask)
    (k : String) (h : mapFind recs k = none) :
    mapFind (execStep pa sp dec now recs task).2.1 k = none := by
  by_cases hp : task.status = "pending"
  · cases hfind : mapFind recs task.record_id with
    | none => rw [execStep_missing pa sp dec now recs task hp hfind]; exact h
    | some record =>
        rcases Bool.eq_false_or_eq_true dec.openNow with hopen | hopen
        · rcases Bool.eq_false_or_eq_true
              (decide (task.action_type = "rotate_password") && dec.markCompleted)
              with hrot | hrot
          · have hk : ¬ k = task.record_id := fun hh => by
              rw [hh, hfind] at h
              cases h
            simp [execStep, hp, hfind, hopen, hrot, mapFind_mapUpdate, hk, h]
          · have hrecs : (execStep pa sp dec now recs task).2.1 = recs := by
              simp [execStep, hp, hfind, hopen, hrot]
            rw [hrecs]
            exact h
        · rw [execStep_deferred pa sp dec now recs task record hp hfind hopen]
          exact h
  · rw [execStep_nonpending pa sp dec now recs task hp]
    exact h

theorem execStep_preserves_find_some (pa : Bool) (sp : List (String × SiteProfile))
    (dec : ExecDecision) (now : String) (recs : RecordsMap) (task : ActionTask)
    (k : String) (r : CredentialRecord) (h : mapFind recs k = some r) :
    ∃ r1, mapFind (execStep pa sp dec now recs task).2.1 k = some r1 ∧
      r1.service = r.service ∧ r1.username = r.username := by
  by_cases hp : task.status = "pending"
  · cases hfind : mapFind recs task.record_id with
    | none =>
        rw [execStep_missing pa sp dec now recs task hp hfind]
        exact ⟨r, h, rfl, rfl⟩
    | some record =>
        rcases Bool.eq_false_or_eq_true dec.openNow with hopen | hopen
        · rcases Bool.eq_false_or_eq_true
              (decide (task.action_type = "rotate_password") && dec.markCompleted)
              with hrot | hrot
          · by_cases hk : k = task.record_id
            · have hrr : record = r := by
                rw [hk, hfind] at h
                injection h
              subst hk
              simp [execStep, hp, hfind, hopen, hrot, mapFind_mapUpdate, hrr]
            · have hne : ¬ k = task.record_id := hk
              simp [execStep, hp, hfind, hopen, hrot, mapFind_mapUpdate, hne, h]
          · have hrecs : (execStep pa sp dec now recs task).2.1 = recs := by
              simp [execStep, hp, hfind, hopen, hrot]
            rw [hrecs]
            exact ⟨r, h, rfl, rfl⟩
        · rw [execStep_deferred pa sp dec now recs task record hp hfind hopen]
          exact ⟨r, h, rfl, rfl⟩
  · rw [execStep_nonpending pa sp dec now recs task hp]
    exact ⟨r, h, rfl, rfl⟩

theorem execGo_nil (pa : Bool) (sp : List (String × SiteProfile))
    (decs : Nat → ExecDecision) (now : String) (i : Nat) (recs : RecordsMap) :
    execGo pa sp decs now [] i recs = ([], recs, []) := rfl

theorem execGo_cons (pa : Bool) (sp : List (String × SiteProfile))
    (decs : Nat → ExecDecision) (now : String) (t0 : ActionTask) (rest : List ActionTask)
    (i : Nat) (recs : RecordsMap) :
    execGo pa sp decs now (t0 :: rest) i recs =
      ((execStep pa sp (decs i) now recs t0).1 ::
        (execGo pa sp decs now rest (i + 1) (execStep pa sp (decs i) now recs t0).2.1).1,
       (execGo pa sp decs now rest (i + 1) (execStep pa sp (decs i) now recs t0).2.1).2.1,
       (execStep pa sp (decs i) now recs t0).2.2 ++
        (execGo pa sp decs now rest (i + 1) (execStep pa sp (decs i) now recs t0).2.1).2.2) := rfl

theorem execGo_journal_sources (pa : Bool) (sp : List (String × SiteProfile))
    (decs : Nat → ExecDecision) (now : String) :
    ∀ (tasks : List ActionTask) (i : Nat) (recs : RecordsMap) (e : JournalEntry),
      e ∈ (execGo pa sp decs now tasks i recs).2.2 →
      ∃ (j : Nat) (t : ActionTask), tasks[j]? = some t ∧ e.task_id = t.task_id := by
  intro tasks
  induction tasks with
  | nil =>
      intro i recs e he
      rw [execGo_nil] at he
      simp at he
  | cons t0 rest ih =>
      intro i recs e he
      rw [execGo_cons] at he
      rw [List.mem_append] at he
      rcases he with he | he
      · exact ⟨0, t0, by simp, execStep_journal_ids pa sp (decs i) now recs t0 e he⟩
      · obtain ⟨j, t, hj, hid⟩ := ih (i + 1) _ e he
        refine ⟨j + 1, t, ?_, hid⟩
        rw [List.getElem?_cons_succ]
        exact hj

theorem execGo_nonpending_get (pa : Bool) (sp : List (String × SiteProfile))
    (decs : Nat → ExecDecision) (now : String) :
    ∀ (tasks : List ActionTask) (j i : Nat) (recs : RecordsMap) (t : ActionTask),
      tasks[j]? = some t → ¬ t.status = "pending" →
      (execGo pa sp decs now tasks i recs).1[j]? = some t := by
  intro tasks
  induction tasks with
  | nil =>
      intro j i recs t hj _
      simp at hj
  | cons t0 rest ih =>
      intro j i recs t hj hnp
      cases j with
      | zero =>
          rw [List.getElem?_cons_zero] at hj
          have ht0 : t0 = t := by injection hj
          subst ht0
          rw [execGo_cons, List.getElem?_cons_zero,
              execStep_nonpending pa sp (decs i) now recs t0 hnp]
      | succ j1 =>
          rw [List.getElem?_cons_succ] at hj
          rw [execGo_cons, List.getElem?_cons_succ]
          exact ih j1 (i + 1) _ t hj hnp

theorem execGo_pinpoint (pa : Bool) (sp : List (String × SiteProfile))
    (decs : Nat → ExecDecision) (now : String) (t : ActionTask)
    (R : RecordsMap → Prop)
    (hR : ∀ dec recs task, R recs → R (execStep pa sp dec now recs task).2.1) :
    ∀ (tasks : List ActionTask) (j i : Nat) (recs : RecordsMap),
      tasks[j]? = some t →
      (∀ jj tt, tasks[jj]? = some tt → tt.task_id = t.task_id → jj = j) →
      R recs →
      ∃ recsj, R recsj ∧
        (execGo pa sp decs now tasks i recs).1[j]? =
          some (execStep pa sp (decs (i + j)) now recsj t).1 ∧
        ((execGo pa sp decs now tasks i recs).2.2.filter
            (fun e => e.task_id = t.task_id)) =
          ((execStep pa sp (decs (i + j)) now recsj t).2.2.filter
            (fun e => e.task_id = t.task_id)) := by
  intro tasks
  induction tasks with
  | nil =>
      intro j i recs hj _ _
      simp at hj
  | cons t0 rest ih =>
      intro j i recs hj huniq hr
      cases j with
      | zero =>
          rw [List.getElem?_cons_zero] at hj
          have ht0 : t0 = t := by injection hj
          subst ht0
          refine ⟨recs, hr, ?_, ?_⟩
          · rw [execGo_cons, List.getElem?_cons_zero, Nat.add_zero]
          · rw [execGo_cons, Nat.add_zero]
            show ((execStep pa sp (decs i) now recs t0).2.2 ++
                (execGo pa sp decs now rest (i + 1)
                  (execStep pa sp (decs i) now recs t0).2.1).2.2).filter
                  (fun e => e.task_id = t0.task_id) = _
            rw [List.filter_append]
            have hrest : ((execGo pa sp decs now rest (i + 1)
                (execStep pa sp (decs i) now recs t0).2.1).2.2.filter
                  (fun e => e.task_id = t0.task_id)) = [] := by
              rw [List.filter_eq_nil_iff]
              intro e he
              obtain ⟨jj, tt, hjj, hid⟩ :=
                execGo_journal_sources pa sp decs now rest (i + 1) _ e he
              simp only [decide_eq_true_eq]
              intro hpe
              have hone : jj + 1 = 0 := by
                apply huniq (jj + 1) tt
                · rw [List.getElem?_cons_succ]
                  exact hjj
                · rw [← hid]
                  exact hpe
              cases hone
            rw [hrest, List.append_nil]
            rfl
      | succ j1 =>
          rw [List.getElem?_cons_succ] at hj
          have h0ne : ¬ t0.task_id = t.task_id := by
            intro hh
            have := huniq 0 t0 (by rw [List.getElem?_cons_zero]) hh
            cases this
          obtain ⟨recsj, hrj, hget, hfil⟩ :=
            ih j1 (i + 1) (execStep pa sp (decs i) now recs t0).2.1 hj
              (fun jj tt hjj hid => by
                have hs := huniq (jj + 1) tt (by rw [List.getElem?_cons_succ]; exact hjj) hid
                omega)
              (hR (decs i) recs t0 hr)
          have hshift : i + (j1 + 1) = (i + 1) + j1 := by omega
          refine ⟨recsj, hrj, ?_, ?_⟩
          · rw [execGo_cons, List.getElem?_cons_succ, hshift]
            exact hget
          · rw [execGo_cons]
            show ((execStep pa sp (decs i) now recs t0).2.2 ++
                (execGo pa sp decs now rest (i + 1)
                  (execStep pa sp (decs i) now recs t0).2.1).2.2).filter
                  (fun e => e.task_id = t.task_id) = _
            rw [List.filter_append]
            have h0 : ((execStep pa sp (decs i) now recs t0).2.2.filter
                (fun e => e.task_id = t.task_id)) = [] := by
              rw [List.filter_eq_nil_iff]
              intro e he
              have hid := execStep_journal_ids pa sp (decs i) now recs t0 e he
              simp only [decide_eq_true_eq]
              intro hpe
              exact h0ne (hid ▸ hpe)
            rw [h0, List.nil_append, hshift]
            exact hfil

/-- Claim C6: `completed`, `skipped` and `failed` are terminal: the
executor processes only `pending` tasks and returns every non-pending
task unchanged at its position; a pending task declined by the operator
becomes `skipped` with detail `"User deferred"`, and such a task (now
non-pending) passes through any subsequent executor step untouched. -/
theorem c6_terminal_statuses (tasks : List ActionTask) (records : RecordsMap)
    (sp : List (String × SiteProfile)) (pa : Bool) (decs : Nat → ExecDecision) (now : String)
    (i : Nat) (t : ActionTask)
    (hget : tasks[i]? = some t) (hnp : ¬ t.status = "pending") :
    (execute_pending_actions tasks records sp pa decs now).tasks[i]? = some t ∧
    (∀ (pa2 : Bool) (sp2 : List (String × SiteProfile)) (dec2 : ExecDecision) (now2 : String)
        (recs2 : RecordsMap),
      execStep pa2 sp2 dec2 now2 recs2 t = (t, recs2, [])) ∧
    (∀ (tp : ActionTask) (dec : ExecDecision) (recs : RecordsMap) (r : CredentialRecord),
      tp.status = "pending" → mapFind recs tp.record_id = some r → dec.openNow = false →
      execStep pa sp dec now recs tp =
        ({ tp with
            status := "skipped"
            detail := "User deferred"
            updated_at := now }, recs, [])) := by
  refine ⟨?_, ?_, ?_⟩
  · exact execGo_nonpending_get pa sp decs now tasks i 0 records t hget hnp
  · intro pa2 sp2 dec2 now2 recs2
    exact execStep_nonpending pa2 sp2 dec2 now2 recs2 t hnp
  · intro tp dec recs r hp hfind hopen
    exact execStep_deferred pa sp dec now recs tp r hp hfind hopen

/-- Witness for C6: a completed task in a concrete queue is returned
unchanged by a fresh executor run. -/
theorem c6_witness :
    (execute_pending_actions [fxTaskDone] [] [] false (fun _ => fxDecOpen) "t1").tasks[0]?
        = some fxTaskDone ∧
    (∀ (pa2 : Bool) (sp2 : List (String × SiteProfile)) (dec2 : ExecDecision) (now2 : String)
        (recs2 : RecordsMap),
      execStep pa2 sp2 dec2 now2 recs2 fxTaskDone = (fxTaskDone, recs2, [])) ∧
    (∀ (tp : ActionTask) (dec : ExecDecision) (recs : RecordsMap) (r : CredentialRecord),
      tp.status = "pending" → mapFind recs tp.record_id = some r → dec.openNow = false →
      execStep false [] dec "t1" recs tp =
        ({ tp with
            status := "skipped"
            detail := "User deferred"
            updated_at := "t1" }, recs, [])) :=
  c6_terminal_statuses [fxTaskDone] [] [] false (fun _ => fxDecOpen) "t1" 0 fxTaskDone
    (by decide) (by decide)

/-- Counterexample for C3: a pending rotation task whose record id is
absent is marked failed with the missing-record detail, but the executor
appends zero journal entries for it, not exactly one. -/
theorem c3_counterexample :
    (execute_pending_actions [fxTaskMissing] [] [] false (fun _ => fxDecOpen) "t1").tasks =
      [{ fxTaskMissing with
          status := "failed"
          detail := "Record missing in vault"
          updated_at := "t1" }] ∧
    (execute_pending_actions [fxTaskMissing] [] [] false (fun _ => fxDecOpen) "t1").journal
      = [] ∧
    ¬ ((execute_pending_actions [fxTaskMissing] [] [] false (fun _ => fxDecOpen)
          "t1").journal.filter
        (fun e => e.task_id = fxTaskMissing.task_id)).length = 1 := by
  refine ⟨by decide, by decide, by decide⟩

/-- Claim C3 (amended): for every pending task whose referenced record id
is absent from the records map, the executor sets the task's status to
`failed` with detail `"Record missing in vault"`, and — because the
missing-record path skips the journal write — appends no journal entry
for that task; the full queue is still persisted afterwards. -/
theorem c3_amended_missing_record (tasks : List ActionTask) (records : RecordsMap)
    (sp : List (String × SiteProfile)) (pa : Bool) (decs : Nat → ExecDecision) (now : String)
    (i : Nat) (t : ActionTask)
    (hget : tasks[i]? = some t) (hp : t.status = "pending")
    (hmiss : mapFind records t.record_id = none)
    (huniq : ∀ j tt, tasks[j]? = some tt → tt.task_id = t.task_id → j = i) :
    (execute_pending_actions tasks records sp pa decs now).tasks[i]? =
      some { t with
        status := "failed"
        detail := "Record missing in vault"
        updated_at := now } ∧
    ((execute_pending_actions tasks records sp pa decs now).journal.filter
        (fun e => e.task_id = t.task_id)) = [] ∧
    (execute_pending_actions tasks records sp pa decs now).savedQueue =
      (execute_pending_actions tasks records sp pa decs now).tasks := by
  obtain ⟨recsj, hrj, hget1, hfil⟩ := execGo_pinpoint pa sp decs now t
    (fun recs => mapFind recs t.record_id = none)
    (fun dec recs task hr =>
      execStep_preserves_find_none pa sp dec now recs task t.record_id hr)
    tasks i 0 records hget huniq hmiss
  rw [execStep_missing pa sp (decs (0 + i)) now recsj t hp hrj] at hget1 hfil
  refine ⟨hget1, ?_, rfl⟩
  show ((execGo pa sp decs now tasks 0 records).2.2.filter
      (fun e => e.task_id = t.task_id)) = []
  rw [hfil]
  rfl

/-- Witness for C3 (amended) on a concrete one-task queue over an empty
records map. -/
theorem c3_amended_witness :
    (execute_pending_actions [fxTaskMissing] [] [] false (fun _ => fxDecOpen)
        "t1").tasks[0]? =
      some { fxTaskMissing with
        status := "failed"
        detail := "Record missing in vault"
        updated_at := "t1" } ∧
    ((execute_pending_actions [fxTaskMissing] [] [] false (fun _ => fxDecOpen)
        "t1").journal.filter
      (fun e => e.task_id = fxTaskMissing.task_id)) = [] ∧
    (execute_pending_actions [fxTaskMissing] [] [] false (fun _ => fxDecOpen) "t1").savedQueue =
      (execute_pending_actions [fxTaskMissing] [] [] false (fun _ => fxDecOpen) "t1").tasks :=
  c3_amended_missing_record [fxTaskMissing] [] [] false (fun _ => fxDecOpen) "t1" 0 fxTaskMissing
    (by decide) (by decide) rfl
    (by
      intro j tt hj hid
      cases j with
      | zero => rfl
      | succ j1 => simp at hj)

/-- Counterexample for C9: a pending task with its record present,
declined at the execute-now prompt, reaches the terminal status
`skipped`, yet the executor appends zero journal entries for it, not
exactly one. -/
theorem c9_counterexample :
    (execute_pending_actions [fxTaskPendingA] [("aaa", fxRecordA)] [] false
        (fun _ => fxDecDefer) "t1").tasks =
      [{ fxTaskPendingA with
          status := "skipped"
          detail := "User deferred"
          updated_at := "t1" }] ∧
    (execute_pending_actions [fxTaskPendingA] [("aaa", fxRecordA)] [] false
        (fun _ => fxDecDefer) "t1").journal = [] ∧
    ¬ ((execute_pending_actions [fxTaskPendingA] [("aaa", fxRecordA)] [] false
          (fun _ => fxDecDefer) "t1").journal.filter
        (fun e => e.task_id = fxTaskPendingA.task_id)).length = 1 := by
  refine ⟨by decide, by decide, by decide⟩

/-- Claim C9 (amended): a journal entry (timestamp, task id, record id,
service, username, action type, resulting status) is appended exactly
once for every pending task the operator confirms for execution — with
terminal status `completed` or `failed` according to the final prompt —
while skipped and missing-record tasks produce no entry; the full task
queue is persisted after the run. -/
theorem c9_amended_confirmed_journal (tasks : List ActionTask) (records : RecordsMap)
    (sp : List (String × SiteProfile)) (pa : Bool) (decs : Nat → ExecDecision) (now : String)
    (i : Nat) (t : ActionTask) (r : CredentialRecord)
    (hget : tasks[i]? = some t) (hp : t.status = "pending")
    (hrec : mapFind records t.record_id = some r)
    (hopen : (decs i).openNow = true)
    (huniq : ∀ j tt, tasks[j]? = some tt → tt.task_id = t.task_id → j = i) :
    ∃ st, (execute_pending_actions tasks records sp pa decs now).tasks[i]? = some st ∧
      st.status = (if (decs i).markCompleted then "completed" else "failed") ∧
      ((execute_pending_actions tasks records sp pa decs now).journal.filter
          (fun e => e.task_id = t.task_id)) =
        [{ timestamp := now, task_id := t.task_id, record_id := t.record_id,
           service := r.service, username := r.username, action_type := t.action_type,
           status := st.status }] ∧
      (execute_pending_actions tasks records sp pa decs now).savedQueue =
        (execute_pending_actions tasks records sp pa decs now).tasks := by
  obtain ⟨recsj, hrj, hget1, hfil⟩ := execGo_pinpoint pa sp decs now t
    (fun recs => ∃ r1, mapFind recs t.record_id = some r1 ∧ r1.service = r.service ∧
      r1.username = r.username)
    (fun dec recs task hr => by
      obtain ⟨r1, hf, hs, hu⟩ := hr
      obtain ⟨r2, hf2, hs2, hu2⟩ :=
        execStep_preserves_find_some pa sp dec now recs task t.record_id r1 hf
      exact ⟨r2, hf2, hs2.trans hs, hu2.trans hu⟩)
    tasks i 0 records hget huniq ⟨r, hrec, rfl, rfl⟩
  obtain ⟨rj, hfj, hsj, huj⟩ := hrj
  rw [Nat.zero_add] at hget1 hfil
  obtain ⟨hst, htid, hent⟩ := execStep_open_status pa sp (decs i) now recsj t rj hp hfj hopen
  refine ⟨(execStep pa sp (decs i) now recsj t).1, hget1, hst, ?_, rfl⟩
  show ((execGo pa sp decs now tasks 0 records).2.2.filter
      (fun e => e.task_id = t.task_id)) = _
  rw [hfil, hent, hst]
  simp [hsj, huj]

/-- Witness for C9 (amended) on a concrete confirmed rotation task. -/
theorem c9_amended_witness :
    ∃ st, (execute_pending_actions [fxTaskPendingA] [("aaa", fxRecordA)] [] false
        (fun _ => fxDecOpen) "t1").tasks[0]? = some st ∧
      st.status = (if fxDecOpen.markCompleted then "completed" else "failed") ∧
      ((execute_pending_actions [fxTaskPendingA] [("aaa", fxRecordA)] [] false
          (fun _ => fxDecOpen) "t1").journal.filter
          (fun e => e.task_id = fxTaskPendingA.task_id)) =
        [{ timestamp := "t1", task_id := fxTaskPendingA.task_id,
           record_id := fxTaskPendingA.record_id,
           service := fxRecordA.service, username := fxRecordA.username,
           action_type := fxTaskPendingA.action_type,
           status := st.status }] ∧
      (execute_pending_actions [fxTaskPendingA] [("aaa", fxRecordA)] [] false
          (fun _ => fxDecOpen) "t1").savedQueue =
        (execute_pending_actions [fxTaskPendingA] [("aaa", fxRecordA)] [] false
          (fun _ => fxDecOpen) "t1").tasks :=
  c9_amended_confirmed_journal [fxTaskPendingA] [("aaa", fxRecordA)] [] false
    (fun _ => fxDecOpen) "t1" 0 fxTaskPendingA fxRecordA
    (by decide) (by decide) (by decide) (by decide)
    (by
      intro j tt hj hid
      cases j with
      | zero => rfl
      | succ j1 => simp at hj)


end CredentialDefense
